import Mathlib

/-!
Shallow embedding of the limit order book engine of `src/lob.py`
(class `LimitOrderBook`), together with proofs about its behaviour.

Modelling conventions:
* Python dicts of ordered dicts (`self._book_data`) become association lists;
  the ordered dicts used as FIFO queues become `List Order`.
* Prices and volumes are rationals (`ℚ`); the source manipulates Python
  numbers with exact comparisons and subtractions only.
* Uncaught Python exceptions become `Except.error` values of type `Err`.
* The unbounded `while` loop of the matcher is given explicit fuel; running
  out of fuel is the modelling artifact `Err.fuelExhausted` (the source loop
  can only diverge on malformed book states).
-/

namespace LOB

/-- Buy/sell indicator: `BID = BUY = 'B'`, `ASK = SELL = 'S'` (lob.py:52-53). -/
inductive Side where
  | B : Side
  | S : Side
deriving DecidableEq

/-- The half-book an incoming BUY/SELL order is matched against. -/
def Side.opp : Side → Side
  | .B => .S
  | .S => .B

/-- A `trans_date`, parsed from `%m/%d/%Y` (lob.py:138). -/
structure Date where
  month : Nat
  day : Nat
  year : Nat
deriving DecidableEq

/-- The order fields the engine consumes (see the column list, lob.py:27-49).
`mkt_flag = true` stands for `'Y'`, `false` for `'N'`. -/
structure Order where
  order_number : Nat
  trans_date : Date
  trans_time : Nat
  buy_sell_indicator : Side
  activity_type : Nat
  volume_disclosed : ℤ
  volume_original : ℤ
  limit_price : ℚ
  mkt_flag : Bool
deriving DecidableEq

/-- Trade payload of an event (lob.py:518-521 and analogous sites). -/
structure Trade where
  trade_price : ℚ
  trade_quantity : ℤ
  buy_order_number : Nat
  sell_order_number : Nat
deriving DecidableEq

inductive Action where
  | add | modify | cancel
deriving DecidableEq

/-- An event record (lob.py:448-462, 709-723, 815-829).  `trade = none`
models the empty trade dict `{}`. -/
structure Event where
  time : Nat
  date : Date
  price : ℚ
  order_number : Nat
  action : Action
  indicator : Side
  mkt_flag : Bool
  volume_original : ℤ
  volume_disclosed : ℤ
  best_bid : Option ℚ
  best_bid_volume_original : ℤ
  best_ask : Option ℚ
  best_ask_volume_original : ℤ
  trade : Option Trade
deriving DecidableEq

/-- A price level: the insertion-ordered dict `order_number -> order`. -/
abbrev Level := List Order

/-- One half of `self._book_data`: the dict `limit_price -> price level`. -/
abbrev Half := List (ℚ × Level)

/-- Uncaught Python exceptions of the source. -/
inductive Err where
  /-- `RuntimeError('empty price level detected')` (lob.py:298, 346). -/
  | emptyLevel
  /-- `KeyError` from indexing a dict with a missing key (e.g. lob.py:270-271). -/
  | keyError
  /-- `AttributeError` from iterating `None` (`od.keys()` with `od = None`). -/
  | attrError
  /-- `NameError` from reading a never-assigned local (`buy_order`/`sell_order`). -/
  | nameError
  /-- `ValueError` (lob.py:158, 731, 835). -/
  | valueError
  /-- Modelling artifact: the matcher's while-loop fuel ran out. -/
  | fuelExhausted
deriving DecidableEq

/-- The mutable state of a `LimitOrderBook` instance (lob.py:69-103). -/
structure Book where
  bid : Half
  ask : Half
  event_counter : Nat
  trade_counter : Nat
  trades : List (Nat × Trade)
  events : List (Nat × Event)
deriving DecidableEq

/-- `self._book_data[indicator]`. -/
def Book.data (b : Book) : Side → Half
  | .B => b.bid
  | .S => b.ask

/-- Writing back one half of `self._book_data`. -/
def Book.setData (b : Book) : Side → Half → Book
  | .B, h => { b with bid := h }
  | .S, h => { b with ask := h }

/-- The fresh book built by `__init__` (lob.py:69-103). -/
def emptyBook : Book :=
  { bid := [], ask := [], event_counter := 1, trade_counter := 1,
    trades := [], events := [] }

/-! ### Dict primitives.  An association list models a Python dict: lookup
finds the (unique) entry with the given key; overwriting preserves the
entry's position; erasing removes it. -/

/-- Dict lookup `book_data[side][price]`, as an option. -/
def lookupLevel (hb : Half) (p : ℚ) : Option Level :=
  match hb with
  | [] => none
  | e :: t => if e.1 = p then some e.2 else lookupLevel t p

/-- Rewrite the value stored under key `p` in place (`od` is mutated through
the book, its position among the levels does not move). -/
def mapKey (hb : Half) (p : ℚ) (f : Level → Level) : Half :=
  match hb with
  | [] => []
  | e :: t =>
    if e.1 = p then (e.1, f e.2) :: mapKey t p f else e :: mapKey t p f

/-- Dict `pop(price)`: drop the entry keyed `p`. -/
def eraseLevel (hb : Half) (p : ℚ) : Half :=
  match hb with
  | [] => []
  | e :: t => if e.1 = p then eraseLevel t p else e :: eraseLevel t p

/-- Ordered-dict lookup `od[order_number]`, as an option. -/
def findO (lvl : Level) (n : Nat) : Option Order :=
  match lvl with
  | [] => none
  | o :: t => if o.order_number = n then some o else findO t n

/-- Ordered-dict `pop(order_number)`: drop the order keyed `n`. -/
def removeO (lvl : Level) (n : Nat) : Level :=
  match lvl with
  | [] => []
  | o :: t => if o.order_number = n then removeO t n else o :: removeO t n

/-- Replace the order keyed `n` in place (queue position preserved). -/
def replaceO (lvl : Level) (n : Nat) (o : Order) : Level :=
  match lvl with
  | [] => []
  | x :: t =>
    if x.order_number = n then o :: replaceO t n o else x :: replaceO t n o

/-- Ordered-dict assignment `od[order_number] = order` (lob.py:602, 766, 772):
replace in place when the key is present (queue position preserved),
otherwise append (push onto the queue). -/
def odSet (lvl : Level) (o : Order) : Level :=
  if (findO lvl o.order_number).isSome then replaceO lvl o.order_number o
  else lvl ++ [o]

/-- `create_level` (lob.py:208-230): install a fresh empty queue under `p`. -/
def create_level (b : Book) (s : Side) (p : ℚ) : Book :=
  b.setData s (b.data s ++ [(p, [])])

/-- `delete_level` (lob.py:232-246). -/
def delete_level (b : Book) (s : Side) (p : ℚ) : Book :=
  b.setData s (eraseLevel (b.data s) p)

/-- `price_level` (lob.py:373-405): `None` when the level is absent. -/
def price_level (b : Book) (s : Side) (p : ℚ) : Option Level :=
  lookupLevel (b.data s) p

/-- Mutate the queue stored at `(s, p)` in place (no-op when absent). -/
def mapLevel (b : Book) (s : Side) (p : ℚ) (f : Level → Level) : Book :=
  b.setData s (mapKey (b.data s) p f)

/-- `delete_order` (lob.py:248-275): `od = book[price]` (KeyError if the level
is absent), `od.pop(order_number)` (KeyError if the order is absent), then
`delete_level` as soon as the queue emptied. -/
def delete_order (s : Side) (p : ℚ) (n : Nat) (b : Book) : Except Err Book :=
  match price_level b s p with
  | none => .error .keyError
  | some lvl =>
    if (findO lvl n).isSome then
      if removeO lvl n = [] then
        .ok (delete_level (mapLevel b s p (fun _ => removeO lvl n)) s p)
      else .ok (mapLevel b s p (fun _ => removeO lvl n))
    else .error .keyError

/-- `best_bid_price` (lob.py:277-299): `None` on an empty half, the maximal
key otherwise, raising when the best level is an empty queue. -/
def best_bid_price (b : Book) : Except Err (Option ℚ) :=
  match b.bid.map (fun e => e.1) with
  | [] => .ok none
  | k :: ks =>
    let best := ks.foldl max k
    match lookupLevel b.bid best with
    | none => .error .keyError
    | some lvl => if lvl = [] then .error .emptyLevel else .ok (some best)

/-- `best_ask_price` (lob.py:325-347): minimal key. -/
def best_ask_price (b : Book) : Except Err (Option ℚ) :=
  match b.ask.map (fun e => e.1) with
  | [] => .ok none
  | k :: ks =>
    let best := ks.foldl min k
    match lookupLevel b.ask best with
    | none => .error .keyError
    | some lvl => if lvl = [] then .error .emptyLevel else .ok (some best)

/-- `sum(order['volume_original'] for order in od)`. -/
def sumOrig (lvl : Level) : ℤ := lvl.foldl (fun a o => a + o.volume_original) 0

/-- `sum(order['volume_disclosed'] for order in od)`. -/
def sumDisc (lvl : Level) : ℤ := lvl.foldl (fun a o => a + o.volume_disclosed) 0

/-- `best_bid_quantity` (lob.py:301-323): `(0, 0)` on an empty half. -/
def best_bid_quantity (b : Book) : Except Err (ℤ × ℤ) :=
  match best_bid_price b with
  | .error e => .error e
  | .ok none => .ok (0, 0)
  | .ok (some p) =>
    match price_level b .B p with
    | none => .error .attrError
    | some lvl => .ok (sumOrig lvl, sumDisc lvl)

/-- `best_ask_quantity` (lob.py:349-371). -/
def best_ask_quantity (b : Book) : Except Err (ℤ × ℤ) :=
  match best_ask_price b with
  | .error e => .error e
  | .ok none => .ok (0, 0)
  | .ok (some p) =>
    match price_level b .S p with
    | none => .error .attrError
    | some lvl => .ok (sumOrig lvl, sumDisc lvl)

/-- `record_event` (lob.py:407-426): journal the event under the current
counter value, then advance the counter. -/
def record_event (b : Book) (ev : Event) : Book :=
  { b with events := b.events ++ [(b.event_counter, ev)],
           event_counter := b.event_counter + 1 }

/-- `clear_book` (lob.py:105-119): empty both halves, reset the trade counter
to 1; trades, events and the event counter survive. -/
def clear_book (b : Book) : Book :=
  { b with bid := [], ask := [], trade_counter := 1 }

/-- The event template built on entry of `add` / `modify` / `cancel`
(lob.py:444-462, 705-723, 811-829); identical in all three, up to `action`.
Evaluation of the best-of-book accessors can raise on malformed books. -/
def mkEvent (act : Action) (o : Order) (b : Book) : Except Err Event :=
  match best_bid_quantity b with
  | .error e => .error e
  | .ok bq =>
    match best_ask_quantity b with
    | .error e => .error e
    | .ok aq =>
      match best_bid_price b with
      | .error e => .error e
      | .ok bb =>
        match best_ask_price b with
        | .error e => .error e
        | .ok ba =>
          .ok { time := o.trans_time, date := o.trans_date,
                price := o.limit_price, order_number := o.order_number,
                action := act, indicator := o.buy_sell_indicator,
                mkt_flag := o.mkt_flag,
                volume_original := o.volume_original,
                volume_disclosed := o.volume_disclosed,
                best_bid := bb, best_bid_volume_original := bq.1,
                best_ask := ba, best_ask_volume_original := aq.1,
                trade := none }

/-- The locals `buy_order` / `sell_order` of the matcher, which may be unbound
(`none`): only their `order_number` is ever read. -/
structure Regs where
  buyN : Option Nat
  sellN : Option Nat
deriving DecidableEq

/-- `buy_order = o` / `sell_order = o` guided by a side indicator. -/
def seedRegs (s : Side) (n : Nat) (r : Regs) : Regs :=
  match s with
  | .B => { r with buyN := some n }
  | .S => { r with sellN := some n }

/-- Building the trade dict (lob.py:518-521 etc.); reading an unbound local
raises `NameError`. -/
def mkTrade (p : ℚ) (q : ℤ) (r : Regs) : Except Err Trade :=
  match r.buyN, r.sellN with
  | some bn, some sn => .ok ⟨p, q, bn, sn⟩
  | _, _ => .error .nameError

/-- The body of `for order_number in od.keys():` in both matching loops
(market loop lob.py:500-570, limit loop lob.py:626-696); `isMkt` selects the
market variant, whose only difference is the trade quantity it records when
the resting volume is below the residual (`curr_order['volume_original']` at
lob.py:559 versus `volume_original` at lob.py:686).  `hbSide` is the
half-book being swept, `p` the best price fixed for this sweep, `V` the
incoming residual. -/
def matchInner (isMkt : Bool) (hbSide : Side) (p : ℚ) (orders : List Order)
    (ev : Event) (V : ℤ) (r : Regs) (b : Book) :
    Except Err (ℤ × Regs × Book) :=
  match orders with
  | [] => .ok (V, r, b)
  | curr :: rest =>
    let r1 := seedRegs curr.buy_sell_indicator curr.order_number r
    if curr.volume_original = V then
      -- equal volumes: trade of quantity V, remove the resting order, break
      match mkTrade p V r1 with
      | .error e => .error e
      | .ok t =>
        let b1 := record_event b { ev with trade := some t }
        match delete_order curr.buy_sell_indicator p curr.order_number b1 with
        | .error e => .error e
        | .ok b2 => .ok (0, r1, b2)
    else if V < curr.volume_original then
      -- resting volume greater: trade of quantity R - V (source arithmetic),
      -- decrement the resting order in place, break
      match mkTrade p (curr.volume_original - V) r1 with
      | .error e => .error e
      | .ok t =>
        let b1 := record_event b { ev with trade := some t }
        let b2 := mapLevel b1 hbSide p (fun lvl =>
          lvl.map (fun x =>
            if x.order_number = curr.order_number then
              { x with volume_original := x.volume_original - V }
            else x))
        .ok (0, r1, b2)
    else
      -- resting volume smaller: trade quantity R in the market loop but V in
      -- the limit loop, remove the resting order, keep sweeping
      match mkTrade p (if isMkt then curr.volume_original else V) r1 with
      | .error e => .error e
      | .ok t =>
        let b1 := record_event b { ev with trade := some t }
        let V1 := V - curr.volume_original
        match delete_order curr.buy_sell_indicator p curr.order_number b1 with
        | .error e => .error e
        | .ok b2 => matchInner isMkt hbSide p rest ev V1 r1 b2

/-- The `while volume_original > 0:` loops of `add` (market: lob.py:476-570,
marketable limit: lob.py:612-696).  Each iteration re-seeds the register of
the incoming side, queries the best opposite price - iterating `None` when the
opposite half is empty raises `AttributeError` - and runs the inner loop over
the level queue. -/
def matchWhile (isMkt : Bool) (inSide : Side) (newNo : Nat) (ev : Event)
    (fuel : Nat) (V : ℤ) (r : Regs) (b : Book) : Except Err Book :=
  match fuel with
  | 0 => .error .fuelExhausted
  | fuel' + 1 =>
    if 0 < V then
      let r1 := seedRegs inSide newNo r
      let bp := match inSide with
                | .B => best_ask_price b
                | .S => best_bid_price b
      match bp with
      | .error e => .error e
      | .ok none => .error .attrError
      | .ok (some p) =>
        match price_level b inSide.opp p with
        | none => .error .attrError
        | some od =>
          match matchInner isMkt inSide.opp p od ev V r1 b with
          | .error e => .error e
          | .ok (V1, r2, b1) => matchWhile isMkt inSide newNo ev fuel' V1 r2 b1
    else .ok b

/-- The marketability test of `add` (lob.py:574-584): a BUY limit at `p` is
marketable when a best ask exists and `p >= best_ask`; a SELL when a best bid
exists and `p <= best_bid`. -/
def marketableB (b : Book) (s : Side) (p : ℚ) : Except Err Bool :=
  match best_ask_price b, best_bid_price b with
  | .ok ba, .ok bb =>
    match s with
    | .B => .ok (match ba with | some a => decide (a ≤ p) | none => false)
    | .S => .ok (match bb with | some q => decide (p ≤ q) | none => false)
  | .error e, _ => .error e
  | _, .error e => .error e

/-- `add` (lob.py:428-698): build the event template; market orders go
straight to the matcher; limit orders run the marketability test and either
match or are posted onto their own side (creating the level when absent),
journaling one event with empty trade. -/
def add (fuel : Nat) (o : Order) (b : Book) : Except Err Book :=
  match mkEvent .add o b with
  | .error e => .error e
  | .ok ev =>
    let ind := o.buy_sell_indicator
    if o.mkt_flag then
      matchWhile true ind o.order_number ev fuel o.volume_original
        ⟨none, none⟩ b
    else
      match marketableB b ind o.limit_price with
      | .error e => .error e
      | .ok mk =>
        if mk then
          matchWhile false ind o.order_number ev fuel o.volume_original
            ⟨none, none⟩ b
        else
          let b1 := match price_level b ind o.limit_price with
                    | some _ => b
                    | none => create_level b ind o.limit_price
          let b2 := mapLevel b1 ind o.limit_price (fun lvl => odSet lvl o)
          .ok (record_event b2 ev)

/-- `modify` (lob.py:700-798).  Note that the old order is looked up in the
level keyed by the NEW order's `limit_price` (lob.py:733-734); the modify
event is journaled at the very end whatever branch ran. -/
def modify (fuel : Nat) (o : Order) (b : Book) : Except Err Book :=
  match mkEvent .modify o b with
  | .error e => .error e
  | .ok ev =>
    if o.mkt_flag then .error .valueError
    else
      let core : Except Err Book :=
        match price_level b o.buy_sell_indicator o.limit_price with
        | none => .ok b
        | some lvl =>
          match findO lvl o.order_number with
          | none => .ok b
          | some old =>
            if o.limit_price ≠ old.limit_price then
              match delete_order old.buy_sell_indicator old.limit_price
                      o.order_number b with
              | .error e => .error e
              | .ok b1 => add fuel o b1
            else if o.volume_original < old.volume_original then
              .ok (mapLevel b o.buy_sell_indicator o.limit_price
                    (fun l => odSet l o))
            else if o.volume_disclosed < old.volume_disclosed then
              .ok (mapLevel b o.buy_sell_indicator o.limit_price
                    (fun l => odSet l o))
            else if o.volume_original > old.volume_original then
              add fuel { o with volume_original :=
                          o.volume_original - old.volume_original } b
            else if o.volume_disclosed > old.volume_disclosed then
              add fuel { o with volume_disclosed :=
                          o.volume_disclosed - old.volume_disclosed } b
            else .ok b
      match core with
      | .error e => .error e
      | .ok b2 => .ok (record_event b2 ev)

/-- `cancel` (lob.py:800-859): locate by (side, price, order number); missing
orders are tolerated; the cancel event is journaled at the end (after a dead
recomputation of the best-of-book quantities, lob.py:855-858). -/
def cancel (o : Order) (b : Book) : Except Err Book :=
  match mkEvent .cancel o b with
  | .error e => .error e
  | .ok ev =>
    if o.mkt_flag then .error .valueError
    else
      let core : Except Err Book :=
        match price_level b o.buy_sell_indicator o.limit_price with
        | none => .ok b
        | some lvl =>
          match findO lvl o.order_number with
          | none => .ok b
          | some _ =>
            delete_order o.buy_sell_indicator o.limit_price o.order_number b
      match core with
      | .error e => .error e
      | .ok b1 =>
        match best_bid_quantity b1 with
        | .error e => .error e
        | .ok _ =>
          match best_ask_quantity b1 with
          | .error e => .error e
          | .ok _ => .ok (record_event b1 ev)

/-- The activity dispatch of `process` (lob.py:146-159): 1 = add, 3 = cancel,
4 = modify unless flagged as market (then re-routed to add). -/
def dispatch (fuel : Nat) (o : Order) (b : Book) : Except Err Book :=
  if o.activity_type = 1 then add fuel o b
  else if o.activity_type = 3 then cancel o b
  else if o.activity_type = 4 then
    if o.mkt_flag then add fuel o b else modify fuel o b
  else .error .valueError

/-- The driver loop of `process` (lob.py:121-159): the day is recorded from
the first order only; when a later order's day-of-month differs from that
recorded day, the book is cleared before the order is handled. -/
def processOrders (fuel : Nat) (day : Option Nat) (orders : List Order)
    (b : Book) : Except Err Book :=
  match orders with
  | [] => .ok b
  | o :: rest =>
    match day with
    | none =>
      match dispatch fuel o b with
      | .error e => .error e
      | .ok b1 => processOrders fuel (some o.trans_date.day) rest b1
    | some d =>
      match dispatch fuel o (if d ≠ o.trans_date.day then clear_book b else b) with
      | .error e => .error e
      | .ok b1 => processOrders fuel (some d) rest b1

/-! ### Inspection helpers used by the statements below -/

/-- Whether a run completed without raising. -/
def isOkB (x : Except Err Book) : Bool :=
  match x with
  | .ok _ => true
  | .error _ => false

/-- The final book of a successful run (the empty book on error). -/
def runBook (x : Except Err Book) : Book :=
  match x with
  | .ok b => b
  | .error _ => emptyBook

/-- The trade quantities carried by the journaled events, in order. -/
def tradeQtys (b : Book) : List (Option ℚ) :=
  b.events.map (fun e => (e.2.trade).map (fun t => t.trade_quantity))

/-- The lookup used by `modify`/`cancel` to locate a resting order. -/
def findOrder (b : Book) (s : Side) (p : ℚ) (n : Nat) : Option Order :=
  match price_level b s p with
  | none => none
  | some lvl => findO lvl n

/-- Invariant: every price level present in either half-book is non-empty. -/
def levelsOK (b : Book) : Prop :=
  (∀ e ∈ b.bid, e.2 ≠ []) ∧ (∀ e ∈ b.ask, e.2 ≠ [])

instance (b : Book) : Decidable (levelsOK b) := by
  unfold levelsOK; infer_instance

/-- Association-list keys without duplicates (what a Python dict guarantees). -/
def keysNodup (hb : Half) : Prop := (hb.map (fun e => e.1)).Nodup

instance (hb : Half) : Decidable (keysNodup hb) := by
  unfold keysNodup; infer_instance

/-- Total resting `volume_original` attributable to order number `n`. -/
def numVol (lvl : Level) (n : Nat) : ℤ :=
  ((lvl.filter (fun x => decide (x.order_number = n))).map
    (fun x => x.volume_original)).foldl (fun a q => a + q) 0

/-- Summed over both half-books. -/
def totalVolFor (b : Book) (n : Nat) : ℤ :=
  ((b.bid ++ b.ask).map (fun e => numVol e.2 n)).foldl (fun a q => a + q) 0

/-! ### Frame lemmas for the primitive state mutators -/

theorem Side.opp_opp (s : Side) : s.opp.opp = s := by cases s <;> rfl

theorem data_setData_self (b : Book) (s : Side) (h : Half) :
    (b.setData s h).data s = h := by cases s <;> rfl

theorem data_setData_opp (b : Book) (s : Side) (h : Half) :
    (b.setData s h).data s.opp = b.data s.opp := by cases s <;> rfl

theorem events_setData (b : Book) (s : Side) (h : Half) :
    (b.setData s h).events = b.events := by cases s <;> rfl

theorem event_counter_setData (b : Book) (s : Side) (h : Half) :
    (b.setData s h).event_counter = b.event_counter := by cases s <;> rfl

theorem trades_setData (b : Book) (s : Side) (h : Half) :
    (b.setData s h).trades = b.trades := by cases s <;> rfl

theorem trade_counter_setData (b : Book) (s : Side) (h : Half) :
    (b.setData s h).trade_counter = b.trade_counter := by cases s <;> rfl

theorem data_record (b : Book) (ev : Event) (s : Side) :
    (record_event b ev).data s = b.data s := by cases s <;> rfl

theorem price_level_record (b : Book) (ev : Event) (s : Side) (p : ℚ) :
    price_level (record_event b ev) s p = price_level b s p := by
  cases s <;> rfl

/-! ### Lookup lemmas for the dict primitives -/

theorem lookup_mapKey_self (hb : Half) (p : ℚ) (f : Level → Level) :
    lookupLevel (mapKey hb p f) p = (lookupLevel hb p).map f := by
  induction hb with
  | nil => rfl
  | cons e t ih =>
    by_cases hp : e.1 = p
    · simp [lookupLevel, mapKey, hp]
    · simpa [lookupLevel, mapKey, hp] using ih

theorem lookup_mapKey_ne (hb : Half) (p : ℚ) (f : Level → Level)
    (q : ℚ) (hq : q ≠ p) :
    lookupLevel (mapKey hb p f) q = lookupLevel hb q := by
  have hq' : p ≠ q := Ne.symm hq
  induction hb with
  | nil => rfl
  | cons e t ih =>
    by_cases hp : e.1 = p
    · have hqe : ¬ e.1 = q := fun hc => hq (hc ▸ hp)
      simpa [lookupLevel, mapKey, hp, hqe, hq'] using ih
    · by_cases hqe : e.1 = q
      · simp [lookupLevel, mapKey, hp, hqe, hq, hq']
      · simpa [lookupLevel, mapKey, hp, hqe, hq'] using ih

theorem lookup_erase_self (hb : Half) (p : ℚ) :
    lookupLevel (eraseLevel hb p) p = none := by
  induction hb with
  | nil => rfl
  | cons e t ih =>
    by_cases hp : e.1 = p
    · simpa [eraseLevel, hp] using ih
    · simpa [lookupLevel, eraseLevel, hp] using ih

theorem lookup_erase_ne (hb : Half) (p q : ℚ) (hq : q ≠ p) :
    lookupLevel (eraseLevel hb p) q = lookupLevel hb q := by
  have hq' : p ≠ q := Ne.symm hq
  induction hb with
  | nil => rfl
  | cons e t ih =>
    by_cases hp : e.1 = p
    · have hqe : ¬ e.1 = q := fun hc => hq (hc ▸ hp)
      simpa [lookupLevel, eraseLevel, hp, hqe, hq'] using ih
    · by_cases hqe : e.1 = q
      · simp [lookupLevel, eraseLevel, hp, hqe, hq, hq']
      · simpa [lookupLevel, eraseLevel, hp, hqe, hq'] using ih

theorem lookup_mem (hb : Half) (p : ℚ) (lvl : Level)
    (h : lookupLevel hb p = some lvl) : (p, lvl) ∈ hb := by
  induction hb with
  | nil => simp [lookupLevel] at h
  | cons e t ih =>
    by_cases hp : e.1 = p
    · simp only [lookupLevel, if_pos hp, Option.some.injEq] at h
      rw [← hp, ← h]
      exact List.mem_cons_self _ _
    · simp only [lookupLevel, if_neg hp] at h
      exact List.mem_cons_of_mem _ (ih h)

theorem lookup_isSome_of_mem_keys (hb : Half) (p : ℚ)
    (h : p ∈ hb.map (fun e => e.1)) : (lookupLevel hb p).isSome := by
  induction hb with
  | nil => simp at h
  | cons e t ih =>
    by_cases hp : e.1 = p
    · simp [lookupLevel, hp]
    · simp only [List.map_cons, List.mem_cons] at h
      rcases h with h | h
      · exact absurd h.symm hp
      · simpa [lookupLevel, hp] using ih h

theorem foldl_max_mem (k : ℚ) (ks : List ℚ) : ks.foldl max k ∈ k :: ks := by
  induction ks generalizing k with
  | nil => exact List.mem_cons_self _ _
  | cons a t ih =>
    rw [List.foldl_cons]
    rcases List.mem_cons.mp (ih (max k a)) with h1 | h1
    · rcases max_choice k a with h2 | h2
      · rw [h1, h2]; exact List.mem_cons_self _ _
      · rw [h1, h2]
        exact List.mem_cons_of_mem _ (List.mem_cons_self _ _)
    · exact List.mem_cons_of_mem _ (List.mem_cons_of_mem _ h1)

theorem mem_mapKey_cases (hb : Half) (p : ℚ) (f : Level → Level)
    (e' : ℚ × Level) (h : e' ∈ mapKey hb p f) :
    (∃ e ∈ hb, e.1 = p ∧ e' = (e.1, f e.2)) ∨ (e' ∈ hb ∧ ¬ e'.1 = p) := by
  induction hb with
  | nil => simp [mapKey] at h
  | cons e t ih =>
    by_cases hp : e.1 = p
    · rw [mapKey, if_pos hp] at h
      rcases List.mem_cons.mp h with h1 | h1
      · exact Or.inl ⟨e, List.mem_cons_self _ _, hp, h1⟩
      · rcases ih h1 with ⟨e0, he0, hk, hv⟩ | ⟨hm, hk⟩
        · exact Or.inl ⟨e0, List.mem_cons_of_mem _ he0, hk, hv⟩
        · exact Or.inr ⟨List.mem_cons_of_mem _ hm, hk⟩
    · rw [mapKey, if_neg hp] at h
      rcases List.mem_cons.mp h with h1 | h1
      · exact Or.inr ⟨List.mem_cons.mpr (Or.inl h1), h1 ▸ hp⟩
      · rcases ih h1 with ⟨e0, he0, hk, hv⟩ | ⟨hm, hk⟩
        · exact Or.inl ⟨e0, List.mem_cons_of_mem _ he0, hk, hv⟩
        · exact Or.inr ⟨List.mem_cons_of_mem _ hm, hk⟩

theorem mem_erase_cases (hb : Half) (p : ℚ) (e' : ℚ × Level)
    (h : e' ∈ eraseLevel hb p) : e' ∈ hb ∧ ¬ e'.1 = p := by
  induction hb with
  | nil => simp [eraseLevel] at h
  | cons e t ih =>
    by_cases hp : e.1 = p
    · rw [eraseLevel, if_pos hp] at h
      exact ⟨List.mem_cons_of_mem _ (ih h).1, (ih h).2⟩
    · rw [eraseLevel, if_neg hp] at h
      rcases List.mem_cons.mp h with h1 | h1
      · exact ⟨List.mem_cons.mpr (Or.inl h1), h1 ▸ hp⟩
      · exact ⟨List.mem_cons_of_mem _ (ih h1).1, (ih h1).2⟩

theorem foldl_min_mem (k : ℚ) (ks : List ℚ) : ks.foldl min k ∈ k :: ks := by
  induction ks generalizing k with
  | nil => exact List.mem_cons_self _ _
  | cons a t ih =>
    rw [List.foldl_cons]
    rcases List.mem_cons.mp (ih (min k a)) with h1 | h1
    · rcases min_choice k a with h2 | h2
      · rw [h1, h2]; exact List.mem_cons_self _ _
      · rw [h1, h2]
        exact List.mem_cons_of_mem _ (List.mem_cons_self _ _)
    · exact List.mem_cons_of_mem _ (List.mem_cons_of_mem _ h1)

/-! ### Preservation of the non-empty-levels invariant -/

theorem levelsOK_data (b : Book) (hb : levelsOK b) (s : Side) :
    ∀ e ∈ b.data s, e.2 ≠ [] := by
  cases s
  · exact hb.1
  · exact hb.2

theorem levelsOK_of_data (b : Book)
    (h : ∀ s, ∀ e ∈ b.data s, e.2 ≠ []) : levelsOK b := ⟨h .B, h .S⟩

theorem levelsOK_setData (b : Book) (s : Side) (h : Half)
    (hb : levelsOK b) (hh : ∀ e ∈ h, e.2 ≠ []) : levelsOK (b.setData s h) := by
  cases s
  · exact ⟨hh, hb.2⟩
  · exact ⟨hb.1, hh⟩

/-- As `levelsOK_setData`, but only requiring the untouched half to be fine. -/
theorem levelsOK_setData' (b : Book) (s : Side) (h : Half)
    (hopp : ∀ e ∈ b.data s.opp, e.2 ≠ []) (hh : ∀ e ∈ h, e.2 ≠ []) :
    levelsOK (b.setData s h) := by
  cases s
  · exact ⟨hh, hopp⟩
  · exact ⟨hopp, hh⟩

theorem levelsOK_record (b : Book) (ev : Event) (hb : levelsOK b) :
    levelsOK (record_event b ev) := hb

theorem levelsOK_clear (b : Book) : levelsOK (clear_book b) := by
  constructor <;> intro e he <;> simp [clear_book] at he

theorem findO_isSome_ne_nil (lvl : Level) (n : Nat)
    (h : (findO lvl n).isSome) : lvl ≠ [] := by
  cases lvl with
  | nil => simp [findO] at h
  | cons o t => exact List.cons_ne_nil o t

theorem replaceO_ne_nil (lvl : Level) (n : Nat) (o : Order)
    (h : lvl ≠ []) : replaceO lvl n o ≠ [] := by
  cases lvl with
  | nil => exact absurd rfl h
  | cons x t =>
    rw [replaceO]
    by_cases hx : x.order_number = n
    · rw [if_pos hx]; exact List.cons_ne_nil _ _
    · rw [if_neg hx]; exact List.cons_ne_nil _ _

theorem odSet_ne_nil (lvl : Level) (o : Order) : odSet lvl o ≠ [] := by
  rw [odSet]
  by_cases hf : (findO lvl o.order_number).isSome
  · rw [if_pos hf]
    exact replaceO_ne_nil _ _ _ (findO_isSome_ne_nil _ _ hf)
  · rw [if_neg hf]
    exact List.append_ne_nil_of_right_ne_nil _ (List.cons_ne_nil _ _)

/-- Rewriting one key's queue with an always-non-empty function keeps every
level non-empty, provided every level at another key already was. -/
theorem levels_ne_mapKey0 (hb : Half) (p : ℚ) (f : Level → Level)
    (h1 : ∀ e ∈ hb, ¬ e.1 = p → e.2 ≠ []) (hf0 : ∀ l, f l ≠ []) :
    ∀ e ∈ mapKey hb p f, e.2 ≠ [] := by
  intro e' he'
  rcases mem_mapKey_cases hb p f e' he' with ⟨e, _, _, hv⟩ | ⟨hm, hk⟩
  · rw [hv]; exact hf0 _
  · exact h1 e' hm hk

/-- Rewriting one key's queue with a non-emptiness-preserving function. -/
theorem levels_ne_mapKey (hb : Half) (p : ℚ) (f : Level → Level)
    (h1 : ∀ e ∈ hb, e.2 ≠ []) (hf : ∀ l, l ≠ [] → f l ≠ []) :
    ∀ e ∈ mapKey hb p f, e.2 ≠ [] := by
  intro e' he'
  rcases mem_mapKey_cases hb p f e' he' with ⟨e, he, _, hv⟩ | ⟨hm, _⟩
  · rw [hv]; exact hf _ (h1 e he)
  · exact h1 e' hm

theorem levelsOK_mapLevel (b : Book) (s : Side) (p : ℚ) (f : Level → Level)
    (hb : levelsOK b) (hf : ∀ l, l ≠ [] → f l ≠ []) :
    levelsOK (mapLevel b s p f) :=
  levelsOK_setData b s _ hb (levels_ne_mapKey _ p f (levelsOK_data b hb s) hf)

theorem levelsOK_mapLevel0 (b : Book) (s : Side) (p : ℚ) (f : Level → Level)
    (hb : levelsOK b) (hf0 : ∀ l, f l ≠ []) :
    levelsOK (mapLevel b s p f) :=
  levelsOK_setData b s _ hb
    (levels_ne_mapKey0 _ p f (fun e he _ => levelsOK_data b hb s e he) hf0)

theorem delete_order_levelsOK (s : Side) (p : ℚ) (n : Nat) (b b' : Book)
    (h : delete_order s p n b = .ok b') (hb : levelsOK b) : levelsOK b' := by
  rw [delete_order] at h
  split at h
  · cases h
  · split at h
    · split at h
      · injection h with h
        rw [← h, delete_level]
        apply levelsOK_setData'
        · rw [mapLevel, data_setData_opp]
          exact levelsOK_data b hb s.opp
        · intro e' he'
          have h2 := mem_erase_cases _ _ _ he'
          rw [mapLevel, data_setData_self] at h2
          rcases mem_mapKey_cases _ _ _ _ h2.1 with ⟨e, _, hk, hv⟩ | ⟨hm, _⟩
          · exact absurd (by rw [hv]; exact hk) h2.2
          · exact levelsOK_data b hb s e' hm
      · injection h with h
        rename_i hnil
        rw [← h]
        exact levelsOK_mapLevel0 b s p _ hb (fun _ => hnil)
    · cases h

theorem matchInner_levelsOK (isMkt : Bool) (hbSide : Side) (p : ℚ) :
    ∀ (orders : List Order) (ev : Event) (V : ℤ) (r : Regs) (b : Book)
      (out : ℤ × Regs × Book),
      matchInner isMkt hbSide p orders ev V r b = .ok out →
      levelsOK b → levelsOK out.2.2 := by
  intro orders
  induction orders with
  | nil =>
    intro ev V r b out h hb
    rw [matchInner] at h
    injection h with h
    rw [← h]
    exact hb
  | cons curr rest ih =>
    intro ev V r b out h hb
    simp only [matchInner] at h
    split at h
    · split at h
      · cases h
      · split at h
        · cases h
        · injection h with h
          rw [← h]
          rename_i hdel
          exact delete_order_levelsOK _ _ _ _ _ hdel (levelsOK_record _ _ hb)
    · split at h
      · split at h
        · cases h
        · injection h with h
          rw [← h]
          exact levelsOK_mapLevel (record_event b _) hbSide p _
            (levelsOK_record _ _ hb)
            (fun l hl h2 => hl (List.map_eq_nil_iff.mp h2))
      · split at h
        · cases h
        · split at h
          · cases h
          · rename_i hdel
            exact ih _ _ _ _ _ h
              (delete_order_levelsOK _ _ _ _ _ hdel (levelsOK_record _ _ hb))

theorem matchWhile_levelsOK (isMkt : Bool) (inSide : Side) (newNo : Nat)
    (ev : Event) :
    ∀ (fuel : Nat) (V : ℤ) (r : Regs) (b b' : Book),
      matchWhile isMkt inSide newNo ev fuel V r b = .ok b' →
      levelsOK b → levelsOK b' := by
  intro fuel
  induction fuel with
  | zero =>
    intro V r b b' h hb
    rw [matchWhile] at h
    cases h
  | succ fuel' ih =>
    intro V r b b' h hb
    simp only [matchWhile] at h
    split at h
    · split at h
      · cases h
      · cases h
      · split at h
        · cases h
        · split at h
          · cases h
          · rename_i hmi
            exact ih _ _ _ _ h (matchInner_levelsOK _ _ _ _ _ _ _ _ _ hmi hb)
    · injection h with h
      rw [← h]
      exact hb

/-! ### Best-of-book accessors succeed on invariant-satisfying books -/

theorem best_bid_price_ok (b : Book) (hb : levelsOK b) :
    ∃ obp, best_bid_price b = .ok obp ∧
      ∀ p, obp = some p → (price_level b .B p).isSome := by
  cases hK : b.bid.map (fun e => e.1) with
  | nil =>
    refine ⟨none, ?_, fun p hp => by cases hp⟩
    simp only [best_bid_price, hK]
  | cons k ks =>
    have hmem : ks.foldl max k ∈ b.bid.map (fun e => e.1) := by
      rw [hK]; exact foldl_max_mem k ks
    have hsome := lookup_isSome_of_mem_keys _ _ hmem
    cases hlv : lookupLevel b.bid (ks.foldl max k) with
    | none => rw [hlv] at hsome; cases hsome
    | some lvl =>
      have hne : lvl ≠ [] := hb.1 _ (lookup_mem _ _ _ hlv)
      refine ⟨some (ks.foldl max k), ?_, fun p hp => ?_⟩
      · simp only [best_bid_price, hK, hlv, if_neg hne]
      · injection hp with hp
        rw [← hp]
        simp [price_level, Book.data, hlv]

theorem best_ask_price_ok (b : Book) (hb : levelsOK b) :
    ∃ obp, best_ask_price b = .ok obp ∧
      ∀ p, obp = some p → (price_level b .S p).isSome := by
  cases hK : b.ask.map (fun e => e.1) with
  | nil =>
    refine ⟨none, ?_, fun p hp => by cases hp⟩
    simp only [best_ask_price, hK]
  | cons k ks =>
    have hmem : ks.foldl min k ∈ b.ask.map (fun e => e.1) := by
      rw [hK]; exact foldl_min_mem k ks
    have hsome := lookup_isSome_of_mem_keys _ _ hmem
    cases hlv : lookupLevel b.ask (ks.foldl min k) with
    | none => rw [hlv] at hsome; cases hsome
    | some lvl =>
      have hne : lvl ≠ [] := hb.2 _ (lookup_mem _ _ _ hlv)
      refine ⟨some (ks.foldl min k), ?_, fun p hp => ?_⟩
      · simp only [best_ask_price, hK, hlv, if_neg hne]
      · injection hp with hp
        rw [← hp]
        simp [price_level, Book.data, hlv]

theorem best_bid_quantity_ok (b : Book) (hb : levelsOK b) :
    ∃ q, best_bid_quantity b = .ok q := by
  obtain ⟨obp, hbp, hlvl⟩ := best_bid_price_ok b hb
  cases obp with
  | none => exact ⟨(0, 0), by simp only [best_bid_quantity, hbp]⟩
  | some p =>
    have hs := hlvl p rfl
    cases hpl : price_level b .B p with
    | none => rw [hpl] at hs; cases hs
    | some lvl =>
      exact ⟨(sumOrig lvl, sumDisc lvl),
        by simp only [best_bid_quantity, hbp, hpl]⟩

theorem best_ask_quantity_ok (b : Book) (hb : levelsOK b) :
    ∃ q, best_ask_quantity b = .ok q := by
  obtain ⟨obp, hbp, hlvl⟩ := best_ask_price_ok b hb
  cases obp with
  | none => exact ⟨(0, 0), by simp only [best_ask_quantity, hbp]⟩
  | some p =>
    have hs := hlvl p rfl
    cases hpl : price_level b .S p with
    | none => rw [hpl] at hs; cases hs
    | some lvl =>
      exact ⟨(sumOrig lvl, sumDisc lvl),
        by simp only [best_ask_quantity, hbp, hpl]⟩

theorem mkEvent_ok (act : Action) (o : Order) (b : Book) (hb : levelsOK b) :
    ∃ ev, mkEvent act o b = .ok ev ∧ ev.trade = none ∧ ev.action = act := by
  obtain ⟨bq, hbq⟩ := best_bid_quantity_ok b hb
  obtain ⟨aq, haq⟩ := best_ask_quantity_ok b hb
  obtain ⟨bb, hbb, _⟩ := best_bid_price_ok b hb
  obtain ⟨ba, hba, _⟩ := best_ask_price_ok b hb
  cases hev : mkEvent act o b with
  | error e =>
    exact Except.noConfusion (by simp only [mkEvent, hbq, haq, hbb, hba] at hev; exact hev : Except.ok _ = Except.error e)
  | ok ev =>
    simp only [mkEvent, hbq, haq, hbb, hba] at hev
    injection hev with hev
    exact ⟨ev, rfl, by rw [← hev], by rw [← hev]⟩

theorem marketableB_ok (b : Book) (s : Side) (p : ℚ) (hb : levelsOK b) :
    ∃ mk, marketableB b s p = .ok mk := by
  obtain ⟨ba, hba, _⟩ := best_ask_price_ok b hb
  obtain ⟨bb, hbb, _⟩ := best_bid_price_ok b hb
  cases hmk : marketableB b s p with
  | ok mk => exact ⟨mk, rfl⟩
  | error e =>
    cases s <;> simp only [marketableB, hba, hbb] at hmk <;>
      exact Except.noConfusion hmk

/-! ### Invariant preservation through the order operations -/

theorem levelsOK_post_create (b : Book) (s : Side) (p : ℚ) (o : Order)
    (hb : levelsOK b) :
    levelsOK (mapLevel (create_level b s p) s p (fun lvl => odSet lvl o)) := by
  apply levelsOK_setData'
  · rw [create_level, data_setData_opp]
    exact levelsOK_data b hb s.opp
  · rw [create_level, data_setData_self]
    apply levels_ne_mapKey0
    · intro e he hk
      rcases List.mem_append.mp he with hm | hm
      · exact levelsOK_data b hb s e hm
      · simp only [List.mem_singleton] at hm
        exact absurd (by rw [hm]) hk
    · exact fun l => odSet_ne_nil l o

theorem add_levelsOK (fuel : Nat) (o : Order) (b b' : Book)
    (h : add fuel o b = .ok b') (hb : levelsOK b) : levelsOK b' := by
  simp only [add] at h
  split at h
  · cases h
  · split at h
    · exact matchWhile_levelsOK _ _ _ _ _ _ _ _ _ h hb
    · split at h
      · cases h
      · split at h
        · exact matchWhile_levelsOK _ _ _ _ _ _ _ _ _ h hb
        · injection h with h
          rw [← h]
          apply levelsOK_record
          cases hpl : price_level b o.buy_sell_indicator o.limit_price with
          | some lvl =>
            exact levelsOK_mapLevel0 b _ _ _ hb (fun l => odSet_ne_nil l o)
          | none =>
            exact levelsOK_post_create b _ _ o hb

theorem modify_levelsOK (fuel : Nat) (o : Order) (b b' : Book)
    (h : modify fuel o b = .ok b') (hb : levelsOK b) : levelsOK b' := by
  simp only [modify] at h
  split at h
  · cases h
  · split at h
    · cases h
    · split at h
      · cases h
      · injection h with h
        rw [← h]
        apply levelsOK_record
        rename_i hcore
        split at hcore
        · injection hcore with hcore; rw [← hcore]; exact hb
        · split at hcore
          · injection hcore with hcore; rw [← hcore]; exact hb
          · split at hcore
            · split at hcore
              · cases hcore
              · rename_i hdel
                exact add_levelsOK _ _ _ _ hcore
                  (delete_order_levelsOK _ _ _ _ _ hdel hb)
            · split at hcore
              · injection hcore with hcore
                rw [← hcore]
                exact levelsOK_mapLevel0 b _ _ _ hb (fun l => odSet_ne_nil l o)
              · split at hcore
                · injection hcore with hcore
                  rw [← hcore]
                  exact levelsOK_mapLevel0 b _ _ _ hb (fun l => odSet_ne_nil l o)
                · split at hcore
                  · exact add_levelsOK _ _ _ _ hcore hb
                  · split at hcore
                    · exact add_levelsOK _ _ _ _ hcore hb
                    · injection hcore with hcore; rw [← hcore]; exact hb

theorem cancel_levelsOK (o : Order) (b b' : Book)
    (h : cancel o b = .ok b') (hb : levelsOK b) : levelsOK b' := by
  simp only [cancel] at h
  split at h
  · cases h
  · split at h
    · cases h
    · split at h
      · cases h
      · rename_i b2 hcore
        have hb2 : levelsOK b2 := by
          split at hcore
          · injection hcore with hcore; rw [← hcore]; exact hb
          · split at hcore
            · injection hcore with hcore; rw [← hcore]; exact hb
            · exact delete_order_levelsOK _ _ _ _ _ hcore hb
        split at h
        · cases h
        · split at h
          · cases h
          · injection h with h
            rw [← h]
            exact levelsOK_record _ _ hb2

theorem dispatch_levelsOK (fuel : Nat) (o : Order) (b b' : Book)
    (h : dispatch fuel o b = .ok b') (hb : levelsOK b) : levelsOK b' := by
  rw [dispatch] at h
  split at h
  · exact add_levelsOK _ _ _ _ h hb
  · split at h
    · exact cancel_levelsOK _ _ _ h hb
    · split at h
      · split at h
        · exact add_levelsOK _ _ _ _ h hb
        · exact modify_levelsOK _ _ _ _ h hb
      · cases h

/-! ### Arithmetic of the level queues -/

theorem findO_eq_none_iff (lvl : Level) (n : Nat) :
    findO lvl n = none ↔ ∀ x ∈ lvl, x.order_number ≠ n := by
  induction lvl with
  | nil => simp [findO]
  | cons x t ih =>
    by_cases hx : x.order_number = n
    · simp [findO, hx]
    · simp [findO, hx, ih]

theorem findO_append_of_none (l1 l2 : Level) (n : Nat)
    (h : findO l1 n = none) : findO (l1 ++ l2) n = findO l2 n := by
  induction l1 with
  | nil => rfl
  | cons x t ih =>
    by_cases hx : x.order_number = n
    · rw [findO, if_pos hx] at h; cases h
    · rw [findO, if_neg hx] at h
      rw [List.cons_append, findO, if_neg hx]
      exact ih h

theorem removeO_of_none (lvl : Level) (n : Nat) (h : findO lvl n = none) :
    removeO lvl n = lvl := by
  induction lvl with
  | nil => rfl
  | cons x t ih =>
    by_cases hx : x.order_number = n
    · rw [findO, if_pos hx] at h; cases h
    · rw [findO, if_neg hx] at h
      rw [removeO, if_neg hx, ih h]

theorem removeO_append (l1 l2 : Level) (n : Nat) :
    removeO (l1 ++ l2) n = removeO l1 n ++ removeO l2 n := by
  induction l1 with
  | nil => rfl
  | cons x t ih =>
    by_cases hx : x.order_number = n
    · rw [List.cons_append, removeO, if_pos hx, removeO, if_pos hx, ih]
    · rw [List.cons_append, removeO, if_neg hx, removeO, if_neg hx,
        List.cons_append, ih]

theorem replaceO_length (lvl : Level) (n : Nat) (o : Order) :
    (replaceO lvl n o).length = lvl.length := by
  induction lvl with
  | nil => rfl
  | cons x t ih =>
    by_cases hx : x.order_number = n
    · rw [replaceO, if_pos hx, List.length_cons, List.length_cons, ih]
    · rw [replaceO, if_neg hx, List.length_cons, List.length_cons, ih]

theorem removeO_all_ne (lvl : Level) (n : Nat)
    (h : ∀ x ∈ lvl, x.order_number ≠ n) : removeO lvl n = lvl :=
  removeO_of_none lvl n ((findO_eq_none_iff lvl n).mpr h)

/-! ### Composition of the half-book rewrites -/

theorem mapKey_mapKey (hb : Half) (p : ℚ) (f g : Level → Level) :
    mapKey (mapKey hb p f) p g = mapKey hb p (fun l => g (f l)) := by
  induction hb with
  | nil => rfl
  | cons e t ih =>
    by_cases hp : e.1 = p
    · rw [mapKey, if_pos hp, mapKey, mapKey, if_pos hp, if_pos hp, ih]
    · rw [mapKey, if_neg hp, mapKey, mapKey, if_neg hp, if_neg hp, ih]

theorem lookup_none_keys (hb : Half) (p : ℚ)
    (h : lookupLevel hb p = none) : ∀ e ∈ hb, ¬ e.1 = p := by
  induction hb with
  | nil => simp
  | cons e t ih =>
    by_cases hp : e.1 = p
    · rw [lookupLevel, if_pos hp] at h; cases h
    · rw [lookupLevel, if_neg hp] at h
      intro e' he'
      rcases List.mem_cons.mp he' with h1 | h1
      · rw [h1]; exact hp
      · exact ih h e' h1

theorem mapKey_of_no_key (hb : Half) (p : ℚ) (f : Level → Level)
    (h : ∀ e ∈ hb, ¬ e.1 = p) : mapKey hb p f = hb := by
  induction hb with
  | nil => rfl
  | cons e t ih =>
    rw [mapKey, if_neg (h e (List.mem_cons_self _ _)),
      ih (fun e' he' => h e' (List.mem_cons_of_mem _ he'))]

theorem mapKey_append (l1 l2 : Half) (p : ℚ) (f : Level → Level) :
    mapKey (l1 ++ l2) p f = mapKey l1 p f ++ mapKey l2 p f := by
  induction l1 with
  | nil => rfl
  | cons e t ih =>
    by_cases hp : e.1 = p
    · rw [List.cons_append, mapKey, if_pos hp, mapKey, if_pos hp,
        List.cons_append, ih]
    · rw [List.cons_append, mapKey, if_neg hp, mapKey, if_neg hp,
        List.cons_append, ih]

theorem eraseLevel_append (l1 l2 : Half) (p : ℚ) :
    eraseLevel (l1 ++ l2) p = eraseLevel l1 p ++ eraseLevel l2 p := by
  induction l1 with
  | nil => rfl
  | cons e t ih =>
    by_cases hp : e.1 = p
    · rw [List.cons_append, eraseLevel, if_pos hp, eraseLevel, if_pos hp, ih]
    · rw [List.cons_append, eraseLevel, if_neg hp, eraseLevel, if_neg hp,
        List.cons_append, ih]

theorem eraseLevel_of_no_key (hb : Half) (p : ℚ)
    (h : ∀ e ∈ hb, ¬ e.1 = p) : eraseLevel hb p = hb := by
  induction hb with
  | nil => rfl
  | cons e t ih =>
    rw [eraseLevel, if_neg (h e (List.mem_cons_self _ _)),
      ih (fun e' he' => h e' (List.mem_cons_of_mem _ he'))]

theorem mapKey_const_self (hb : Half) (p : ℚ) (lvl : Level)
    (hnk : keysNodup hb) (h : lookupLevel hb p = some lvl) :
    mapKey hb p (fun _ => lvl) = hb := by
  induction hb with
  | nil => rfl
  | cons e t ih =>
    have hnk' : keysNodup t := (List.nodup_cons.mp hnk).2
    by_cases hp : e.1 = p
    · rw [lookupLevel, if_pos hp] at h
      injection h with h
      have hnot : ∀ e' ∈ t, ¬ e'.1 = p := by
        intro e' he' hc
        apply (List.nodup_cons.mp hnk).1
        show e.1 ∈ List.map (fun x => x.1) t
        rw [hp, ← hc]
        exact List.mem_map_of_mem (fun x => x.1) he'
      rw [mapKey, if_pos hp, mapKey_of_no_key t p _ hnot, ← h]
    · rw [lookupLevel, if_neg hp] at h
      rw [mapKey, if_neg hp, ih hnk' h]

theorem side_eq_or (s t : Side) : s = t ∨ s = t.opp := by
  cases s <;> cases t <;> simp [Side.opp]

theorem lookup_append_of_no_key (l1 l2 : Half) (p : ℚ)
    (h : ∀ e ∈ l1, ¬ e.1 = p) :
    lookupLevel (l1 ++ l2) p = lookupLevel l2 p := by
  induction l1 with
  | nil => rfl
  | cons e t ih =>
    rw [List.cons_append, lookupLevel, if_neg (h e (List.mem_cons_self _ _))]
    exact ih (fun e' he' => h e' (List.mem_cons_of_mem _ he'))

theorem book_eq_halves (x y : Book) (s : Side)
    (h1 : x.data s = y.data s) (h2 : x.data s.opp = y.data s.opp) :
    x.bid = y.bid ∧ x.ask = y.ask := by
  cases s
  · exact ⟨h1, h2⟩
  · exact ⟨h2, h1⟩

/-- The effect of `delete_order` when the target is the oldest order of a
known level queue whose tail does not reuse its order number. -/
theorem delete_order_post (s : Side) (p : ℚ) (curr : Order)
    (rest : List Order) (b : Book)
    (hlv : price_level b s p = some (curr :: rest))
    (hrest : ∀ x ∈ rest, x.order_number ≠ curr.order_number) :
    ∃ b', delete_order s p curr.order_number b = .ok b' ∧
      price_level b' s p = (if rest = [] then none else some rest) ∧
      (∀ q, q ≠ p → price_level b' s q = price_level b s q) ∧
      b'.data s.opp = b.data s.opp ∧
      b'.events = b.events ∧ b'.event_counter = b.event_counter ∧
      b'.trades = b.trades ∧ b'.trade_counter = b.trade_counter := by
  have hfind : findO (curr :: rest) curr.order_number = some curr := by
    rw [findO, if_pos rfl]
  have hrem : removeO (curr :: rest) curr.order_number = rest := by
    rw [removeO, if_pos rfl]
    exact removeO_all_ne rest curr.order_number hrest
  by_cases hnil : rest = []
  · subst hnil
    refine ⟨delete_level (mapLevel b s p
      (fun _ => removeO (curr :: []) curr.order_number)) s p, ?_, ?_, ?_, ?_,
      ?_, ?_, ?_, ?_⟩
    · simp [delete_order, hlv, hfind, hrem]
    · rw [if_pos rfl, delete_level, price_level, data_setData_self,
        lookup_erase_self]
    · intro q hq
      rw [delete_level, price_level, data_setData_self, lookup_erase_ne _ _ _ hq,
        mapLevel, data_setData_self, lookup_mapKey_ne _ _ _ _ hq]
      rfl
    · rw [delete_level, data_setData_opp, mapLevel, data_setData_opp]
    · rw [delete_level, events_setData, mapLevel, events_setData]
    · rw [delete_level, event_counter_setData, mapLevel, event_counter_setData]
    · rw [delete_level, trades_setData, mapLevel, trades_setData]
    · rw [delete_level, trade_counter_setData, mapLevel, trade_counter_setData]
  · refine ⟨mapLevel b s p
      (fun _ => removeO (curr :: rest) curr.order_number), ?_, ?_, ?_, ?_,
      ?_, ?_, ?_, ?_⟩
    · simp [delete_order, hlv, hfind, hrem, hnil]
    · rw [if_neg hnil, mapLevel, price_level, data_setData_self,
        lookup_mapKey_self]
      rw [price_level] at hlv
      rw [hlv, Option.map_some', hrem]
    · intro q hq
      rw [mapLevel, price_level, data_setData_self, lookup_mapKey_ne _ _ _ _ hq]
      rfl
    · rw [mapLevel, data_setData_opp]
    · rw [mapLevel, events_setData]
    · rw [mapLevel, event_counter_setData]
    · rw [mapLevel, trades_setData]
    · rw [mapLevel, trade_counter_setData]

/-! ### Concrete fixtures for the claim-level statements -/

/-- A plain BUY limit order: number 1, price 49, volumes 100/100, day 5. -/
def oBuy49 : Order :=
  { order_number := 1, trans_date := ⟨1, 5, 2020⟩, trans_time := 1,
    buy_sell_indicator := .B, activity_type := 1,
    volume_disclosed := 100, volume_original := 100, limit_price := 49,
    mkt_flag := false }

/-- A BUY market order with nothing on the opposite side to hit. -/
def oMktBuy : Order :=
  { order_number := 1, trans_date := ⟨1, 5, 2020⟩, trans_time := 1,
    buy_sell_indicator := .B, activity_type := 1,
    volume_disclosed := 100, volume_original := 100, limit_price := 0,
    mkt_flag := true }

/-- A resting SELL limit: number 1, price 50, volumes 100/100. -/
def oSell50 : Order :=
  { order_number := 1, trans_date := ⟨1, 5, 2020⟩, trans_time := 1,
    buy_sell_indicator := .S, activity_type := 1,
    volume_disclosed := 100, volume_original := 100, limit_price := 50,
    mkt_flag := false }

/-- A BUY limit that exactly matches `oSell50`. -/
def oBuy50 : Order :=
  { order_number := 2, trans_date := ⟨1, 5, 2020⟩, trans_time := 2,
    buy_sell_indicator := .B, activity_type := 1,
    volume_disclosed := 100, volume_original := 100, limit_price := 50,
    mkt_flag := false }

/-- A second resting SELL behind `oSell50`: number 3, 60 @ 50. -/
def oS60 : Order :=
  { order_number := 3, trans_date := ⟨1, 5, 2020⟩, trans_time := 3,
    buy_sell_indicator := .S, activity_type := 1,
    volume_disclosed := 60, volume_original := 60, limit_price := 50,
    mkt_flag := false }

/-- Ask side holding [100 @ 50 (order 1), 60 @ 50 (order 3)]. -/
def bkAsk : Book :=
  { bid := [], ask := [(50, [oSell50, oS60])], event_counter := 1,
    trade_counter := 1, trades := [], events := [] }

/-- An aggressive BUY limit 150 @ 50 (order 2), marketable against `bkAsk`. -/
def oBuy150 : Order :=
  { order_number := 2, trans_date := ⟨1, 5, 2020⟩, trans_time := 2,
    buy_sell_indicator := .B, activity_type := 1,
    volume_disclosed := 150, volume_original := 150, limit_price := 50,
    mkt_flag := false }

/-- A book holding only `oBuy49`, resting on the bid side at 49. -/
def bkMod : Book :=
  { bid := [(49, [oBuy49])], ask := [], event_counter := 1,
    trade_counter := 1, trades := [], events := [] }

/-- A modify of order 1 that moves its limit price from 49 to 50. -/
def oMod50 : Order := { oBuy49 with activity_type := 4, limit_price := 50 }

/-- An unrelated order resting at 50 (number 7). -/
def oB50n7 : Order :=
  { order_number := 7, trans_date := ⟨1, 5, 2020⟩, trans_time := 7,
    buy_sell_indicator := .B, activity_type := 1,
    volume_disclosed := 30, volume_original := 30, limit_price := 50,
    mkt_flag := false }

/-- As `bkMod`, but with a level already present at the new price 50. -/
def bkMod2 : Book :=
  { bid := [(49, [oBuy49]), (50, [oB50n7])], ask := [], event_counter := 1,
    trade_counter := 1, trades := [], events := [] }

/-- First order of a stream, on day-of-month 5. -/
def oDay5 : Order := oBuy49

/-- Second order, on day-of-month 6 (posts at 48). -/
def oDay6 : Order :=
  { order_number := 2, trans_date := ⟨1, 6, 2020⟩, trans_time := 2,
    buy_sell_indicator := .B, activity_type := 1,
    volume_disclosed := 100, volume_original := 100, limit_price := 48,
    mkt_flag := false }

/-- Third order, one month later but again on day-of-month 5 (posts at 47). -/
def oDay5b : Order :=
  { order_number := 3, trans_date := ⟨2, 5, 2020⟩, trans_time := 3,
    buy_sell_indicator := .B, activity_type := 1,
    volume_disclosed := 100, volume_original := 100, limit_price := 47,
    mkt_flag := false }

/-! ### C9: the frame of `clear_book` -/

/-- C9: `clear_book` empties both half-books and resets the trade sequence
counter to 1, while the event counter keeps its value and all previously
journaled trades and events remain in their logs. -/
theorem clear_book_frame (b : Book) :
    (clear_book b).bid = [] ∧ (clear_book b).ask = [] ∧
    (clear_book b).trade_counter = 1 ∧
    (clear_book b).event_counter = b.event_counter ∧
    (clear_book b).trades = b.trades ∧
    (clear_book b).events = b.events :=
  ⟨rfl, rfl, rfl, rfl, rfl, rfl⟩

/-! ### C7: no empty price level survives a process step -/

/-- C7: after every complete process step (add, modify or cancel, as routed
by the activity dispatch), every price level present in either half-book
contains at least one resting order: levels are created only together with an
insertion, and a level whose last order leaves (by fill, cancel or
modify-removal) is deleted in the same step. -/
theorem process_step_preserves_nonempty_levels (fuel : Nat) (o : Order)
    (b b' : Book) (hb : levelsOK b) (h : dispatch fuel o b = .ok b') :
    levelsOK b' :=
  dispatch_levelsOK fuel o b b' h hb

theorem process_step_preserves_nonempty_levels_witness :
    levelsOK (runBook (dispatch 5 oBuy49 emptyBook)) :=
  process_step_preserves_nonempty_levels 5 oBuy49 emptyBook
    (runBook (dispatch 5 oBuy49 emptyBook)) (by decide) rfl

/-! ### C2: a market order facing an empty opposite book -/

/-- C2 (code bug): the claim and the source's own docstring say the residual
of a market order facing no liquidity is discarded non-fatally, but the code
reaches `od.keys()` with `od = None` (best price `None` is not an exit
condition, lob.py:483-485) and raises `AttributeError`: processing a market
BUY aborts with an error instead of discarding the quantity, both when the
opposite book is empty on entry and when it empties mid-sweep (here: market
BUY 100 first fills the lone resting SELL 60, then the re-queried best ask is
`None` with residual 40 still positive). -/
theorem market_no_liquidity_raises :
    add 5 oMktBuy emptyBook = .error .attrError ∧
    add 5 oMktBuy { emptyBook with ask := [(50, [oS60])] }
      = .error .attrError :=
  ⟨rfl, rfl⟩

/-! ### C3: per-fill journaling -/

/-- C3 (code bug): a fill journals exactly one Event with the trade payload
populated, but nothing is ever appended to the trade log `self._trades` and
`self._trade_counter` never advances, although the class's own comments say
trades are recorded there.  Concretely: posting SELL 100 @ 50 and then
crossing it with BUY 100 @ 50 yields one fill event carrying the trade and
an untouched, still-empty trade log.  The Event side of the claim holds: a
two-fill sweep (BUY 150 @ 50 against [100 @ 50, 60 @ 50]) journals one event
per fill, each with the trade field populated and both carrying the same
pre-action top-of-book snapshot taken at entry, while the trade log again
stays empty. -/
theorem fill_emits_event_but_no_trade_row :
    isOkB (add 5 oSell50 emptyBook) = true ∧
    isOkB (add 5 oBuy50 (runBook (add 5 oSell50 emptyBook))) = true ∧
    (runBook (add 5 oBuy50 (runBook (add 5 oSell50 emptyBook)))).trades
      = [] ∧
    (runBook (add 5 oBuy50 (runBook (add 5 oSell50 emptyBook)))).trade_counter
      = emptyBook.trade_counter ∧
    (runBook (add 5 oBuy50 (runBook (add 5 oSell50 emptyBook)))).events.map
        (fun e => (e.2.action, e.2.trade)) =
      [(.add, none),
       (.add, some { trade_price := 50, trade_quantity := 100,
                     buy_order_number := 2, sell_order_number := 1 })] ∧
    (runBook (add 10 oBuy150 bkAsk)).events.map
        (fun e => (e.2.trade).isSome) = [true, true] ∧
    (runBook (add 10 oBuy150 bkAsk)).events.map
        (fun e => (e.2.best_bid, e.2.best_bid_volume_original,
          e.2.best_ask, e.2.best_ask_volume_original)) =
      [(none, 0, some 50, 160), (none, 0, some 50, 160)] ∧
    (runBook (add 10 oBuy150 bkAsk)).trades = [] := by
  exact ⟨by decide, by decide, by decide, by decide, by decide, by decide,
    by decide, by decide⟩

/-! ### C4: modify with a changed limit price -/

/-- C4 (code bug): a price-changing modify is claimed to locate the old order
via its old price, remove it and re-drive `add` at the new price; the code
instead looks the order up in the level keyed by the NEW price
(lob.py:733-734), finds nothing, journals a modify event with empty trade and
leaves the book untouched.  Concretely: with order 1 resting as BUY 100 @ 49,
modifying it to price 50 leaves it resting at 49 and posts nothing at 50,
both when no level exists at 50 and when one does (order 1 is then missing
from it). -/
theorem modify_price_change_misses_old_order :
    isOkB (modify 5 oMod50 bkMod) = true ∧
    (runBook (modify 5 oMod50 bkMod)).bid = bkMod.bid ∧
    (runBook (modify 5 oMod50 bkMod)).ask = [] ∧
    (runBook (modify 5 oMod50 bkMod)).events.map
        (fun e => (e.2.action, e.2.trade)) = [(.modify, none)] ∧
    findOrder (runBook (modify 5 oMod50 bkMod)) .B 50 1 = none ∧
    isOkB (modify 5 oMod50 bkMod2) = true ∧
    (runBook (modify 5 oMod50 bkMod2)).bid = bkMod2.bid ∧
    (runBook (modify 5 oMod50 bkMod2)).events.map
        (fun e => (e.2.action, e.2.trade)) = [(.modify, none)] ∧
    findOrder (runBook (modify 5 oMod50 bkMod2)) .B 50 1 = none := by
  exact ⟨by decide, by decide, by decide, by decide, by decide, by decide,
    by decide, by decide, by decide⟩

/-! ### C5: the day-boundary reset -/

/-- C5 counterexample: the claim says that once an action's day-of-month
differs from the first action's, `clear_book` runs before that action and
before EVERY subsequent action.  In the stream below the third action falls
on day-of-month 5 again (one month later), equal to the recorded first day,
so no clearing happens before it: the order posted by the second (day 6)
action is still resting afterwards, together with the third order - the book
was not emptied before the third action. -/
theorem day_reset_counterexample :
    isOkB (processOrders 5 none [oDay5, oDay6, oDay5b] emptyBook) = true ∧
    (runBook (processOrders 5 none [oDay5, oDay6, oDay5b] emptyBook)).bid.map
        (fun e => (e.1, e.2.map (fun o => o.order_number))) =
      [(48, [2]), (47, [3])] := by
  exact ⟨by decide, by decide⟩

/-- C5 amended: for a stream whose first action recorded day-of-month `d`,
`clear_book` is invoked before a subsequent action exactly when that action's
day-of-month differs from `d` (the recorded day is never updated); when it is
invoked, the handler sees a book with both half-books emptied. -/
theorem day_reset_only_on_differing_day (fuel d : Nat) (o : Order)
    (rest : List Order) (b : Book) :
    (o.trans_date.day = d →
      processOrders fuel (some d) (o :: rest) b =
        match dispatch fuel o b with
        | .error e => .error e
        | .ok b1 => processOrders fuel (some d) rest b1) ∧
    (o.trans_date.day ≠ d →
      (processOrders fuel (some d) (o :: rest) b =
        match dispatch fuel o (clear_book b) with
        | .error e => .error e
        | .ok b1 => processOrders fuel (some d) rest b1) ∧
      (clear_book b).bid = [] ∧ (clear_book b).ask = []) := by
  constructor
  · intro hd
    rw [processOrders, if_neg (fun hne => hne hd.symm)]
  · intro hd
    refine ⟨?_, rfl, rfl⟩
    rw [processOrders, if_pos (fun hc => hd hc.symm)]

theorem day_reset_only_on_differing_day_witness :
    (processOrders 3 (some 5) [oDay6] emptyBook =
      match dispatch 3 oDay6 (clear_book emptyBook) with
      | .error e => .error e
      | .ok b1 => processOrders 3 (some 5) [] b1) ∧
    (clear_book emptyBook).bid = [] ∧ (clear_book emptyBook).ask = [] :=
  (day_reset_only_on_differing_day 3 5 oDay6 [] emptyBook).2 (by decide)

/-! ### C8: modify/cancel of an unlocatable order -/

/-- C8: when the target of a (non-market-flagged) modify or cancel cannot be
located by (side, price, order number), processing is non-fatal: exactly one
event - action modify resp. cancel - with an empty trade field is journaled,
and the resting-order state of both half-books is unchanged. -/
theorem missing_modify_cancel_nonfatal (fuel : Nat) (o : Order) (b : Book)
    (hm : o.mkt_flag = false)
    (hnf : findOrder b o.buy_sell_indicator o.limit_price o.order_number
      = none)
    (hb : levelsOK b) :
    (∃ b', modify fuel o b = .ok b' ∧ b'.bid = b.bid ∧ b'.ask = b.ask ∧
      b'.trades = b.trades ∧
      ∃ ev, b'.events = b.events ++ [(b.event_counter, ev)] ∧
        ev.trade = none ∧ ev.action = .modify) ∧
    (∃ b', cancel o b = .ok b' ∧ b'.bid = b.bid ∧ b'.ask = b.ask ∧
      b'.trades = b.trades ∧
      ∃ ev, b'.events = b.events ++ [(b.event_counter, ev)] ∧
        ev.trade = none ∧ ev.action = .cancel) := by
  obtain ⟨qb, hqb⟩ := best_bid_quantity_ok b hb
  obtain ⟨qa, hqa⟩ := best_ask_quantity_ok b hb
  constructor
  · obtain ⟨ev, hev, hevt, heva⟩ := mkEvent_ok .modify o b hb
    refine ⟨record_event b ev, ?_, rfl, rfl, rfl, ev, rfl, hevt, heva⟩
    cases hpl : price_level b o.buy_sell_indicator o.limit_price with
    | none => simp [modify, hev, hm, hpl]
    | some lvl =>
      have hfo : findO lvl o.order_number = none := by
        simpa only [findOrder, hpl] using hnf
      simp [modify, hev, hm, hpl, hfo]
  · obtain ⟨ev, hev, hevt, heva⟩ := mkEvent_ok .cancel o b hb
    refine ⟨record_event b ev, ?_, rfl, rfl, rfl, ev, rfl, hevt, heva⟩
    cases hpl : price_level b o.buy_sell_indicator o.limit_price with
    | none => simp [cancel, hev, hm, hpl, hqb, hqa]
    | some lvl =>
      have hfo : findO lvl o.order_number = none := by
        simpa only [findOrder, hpl] using hnf
      simp [cancel, hev, hm, hpl, hfo, hqb, hqa]

/-- A modify/cancel target that rests nowhere. -/
def oMiss : Order :=
  { order_number := 9, trans_date := ⟨1, 5, 2020⟩, trans_time := 9,
    buy_sell_indicator := .B, activity_type := 4,
    volume_disclosed := 10, volume_original := 10, limit_price := 49,
    mkt_flag := false }

theorem missing_modify_cancel_nonfatal_witness :
    (∃ b', modify 5 oMiss emptyBook = .ok b' ∧ b'.bid = emptyBook.bid ∧
      b'.ask = emptyBook.ask ∧ b'.trades = emptyBook.trades ∧
      ∃ ev, b'.events = emptyBook.events ++ [(emptyBook.event_counter, ev)] ∧
        ev.trade = none ∧ ev.action = .modify) ∧
    (∃ b', cancel oMiss emptyBook = .ok b' ∧ b'.bid = emptyBook.bid ∧
      b'.ask = emptyBook.ask ∧ b'.trades = emptyBook.trades ∧
      ∃ ev, b'.events = emptyBook.events ++ [(emptyBook.event_counter, ev)] ∧
        ev.trade = none ∧ ev.action = .cancel) :=
  missing_modify_cancel_nonfatal 5 oMiss emptyBook rfl rfl (by decide)

/-! ### C10: modify that increases the disclosed volume -/

/-- Resting BUY 100 @ 49 with disclosed volume 50. -/
def oDisc50 : Order :=
  { order_number := 1, trans_date := ⟨1, 5, 2020⟩, trans_time := 1,
    buy_sell_indicator := .B, activity_type := 1,
    volume_disclosed := 50, volume_original := 100, limit_price := 49,
    mkt_flag := false }

/-- A book holding only `oDisc50`. -/
def bkDisc : Book :=
  { bid := [(49, [oDisc50])], ask := [], event_counter := 1,
    trade_counter := 1, trades := [], events := [] }

/-- The modify of order 1 raising the disclosed volume from 50 to 80
(price and volume_original unchanged). -/
def oDisc80 : Order :=
  { oDisc50 with activity_type := 4, volume_disclosed := 80 }

/-- C10 counterexample: the claim says the total resting `volume_original`
attributable to the order number grows by the full `volume_original` (here:
from 100 to 200).  In fact the delta-disclosed copy shares the dict key of
the old order, so the posting overwrites it in place: the total stays 100 and
the resting entry ends with disclosed volume 30 (the delta). -/
theorem disclosed_increase_counterexample :
    isOkB (modify 5 oDisc80 bkDisc) = true ∧
    totalVolFor (runBook (modify 5 oDisc80 bkDisc)) 1 = 100 ∧
    ¬ totalVolFor (runBook (modify 5 oDisc80 bkDisc)) 1 =
        totalVolFor bkDisc 1 + 100 ∧
    (findOrder (runBook (modify 5 oDisc80 bkDisc)) .B 49 1).map
        (fun o => (o.volume_original, o.volume_disclosed)) =
      some (100, 30) := by
  exact ⟨by decide, by decide, by decide, by decide⟩

/-- C10 amended: a disclosed-volume-increase modify (price and
`volume_original` unchanged, `volume_disclosed` strictly increased) leaves
the old order resting and re-drives `add` with a copy whose
`volume_disclosed` is the disclosed delta and whose `volume_original` is the
full new `volume_original`; because the copy shares (side, price, order
number) with the old order, the non-marketable posting overwrites the old
resting entry in place: the level keeps its length, and the resting entry
for that order number carries `volume_original = o.volume_original`
(unchanged, not the sum) and the delta disclosed volume. -/
theorem disclosed_increase_overwrites (fuel : Nat) (o old : Order)
    (lvl : Level) (b : Book)
    (hm : o.mkt_flag = false)
    (hpl : price_level b o.buy_sell_indicator o.limit_price = some lvl)
    (hold : findO lvl o.order_number = some old)
    (hpx : o.limit_price = old.limit_price)
    (hvol : o.volume_original = old.volume_original)
    (hdisc : old.volume_disclosed < o.volume_disclosed)
    (hmk : marketableB b o.buy_sell_indicator o.limit_price = .ok false)
    (hb : levelsOK b) :
    ∃ b', modify fuel o b = .ok b' ∧
      price_level b' o.buy_sell_indicator o.limit_price =
        some (replaceO lvl o.order_number
          { o with volume_disclosed :=
              o.volume_disclosed - old.volume_disclosed }) ∧
      (∀ q, q ≠ o.limit_price →
        price_level b' o.buy_sell_indicator q =
          price_level b o.buy_sell_indicator q) ∧
      b'.data o.buy_sell_indicator.opp = b.data o.buy_sell_indicator.opp ∧
      (replaceO lvl o.order_number
          { o with volume_disclosed :=
              o.volume_disclosed - old.volume_disclosed }).length
        = lvl.length ∧
      b'.events.length = b.events.length + 2 := by
  obtain ⟨ev, hev, _, _⟩ := mkEvent_ok .modify o b hb
  obtain ⟨ev2, hev2, _, _⟩ := mkEvent_ok .add
    { o with volume_disclosed := o.volume_disclosed - old.volume_disclosed }
    b hb
  rw [hm] at hev2
  have h1 : ¬ (o.limit_price ≠ old.limit_price) := fun hc => hc hpx
  have h2 : ¬ (o.volume_original < old.volume_original) := by
    rw [hvol]; exact lt_irrefl _
  have h3 : ¬ (o.volume_disclosed < old.volume_disclosed) := lt_asymm hdisc
  have h4 : ¬ (o.volume_original > old.volume_original) := by
    rw [hvol]; exact lt_irrefl _
  refine ⟨record_event (record_event
    (mapLevel b o.buy_sell_indicator o.limit_price (fun l => odSet l
      { o with volume_disclosed :=
          o.volume_disclosed - old.volume_disclosed })) ev2) ev,
    ?_, ?_, ?_, ?_, ?_, ?_⟩
  · simp [modify, add, hev, hev2, hm, hpl, hold, h1, h2, h3, h4, hdisc, hmk]
  · rw [price_level_record, price_level_record, mapLevel, price_level,
      data_setData_self, lookup_mapKey_self]
    rw [price_level] at hpl
    rw [hpl, Option.map_some']
    rw [odSet, if_pos (by
      show (findO lvl o.order_number).isSome = true
      rw [hold]; rfl)]
  · intro q hq
    rw [price_level_record, price_level_record, mapLevel, price_level,
      data_setData_self, lookup_mapKey_ne _ _ _ _ hq]
    rfl
  · rw [data_record, data_record, mapLevel, data_setData_opp]
  · exact replaceO_length _ _ _
  · simp [record_event, mapLevel, events_setData]

theorem disclosed_increase_overwrites_witness :
    ∃ b', modify 5 oDisc80 bkDisc = .ok b' ∧
      price_level b' oDisc80.buy_sell_indicator oDisc80.limit_price =
        some (replaceO [oDisc50] oDisc80.order_number
          { oDisc80 with volume_disclosed :=
              oDisc80.volume_disclosed - oDisc50.volume_disclosed }) ∧
      (∀ q, q ≠ oDisc80.limit_price →
        price_level b' oDisc80.buy_sell_indicator q =
          price_level bkDisc oDisc80.buy_sell_indicator q) ∧
      b'.data oDisc80.buy_sell_indicator.opp =
        bkDisc.data oDisc80.buy_sell_indicator.opp ∧
      (replaceO [oDisc50] oDisc80.order_number
          { oDisc80 with volume_disclosed :=
              oDisc80.volume_disclosed - oDisc50.volume_disclosed }).length
        = ([oDisc50] : Level).length ∧
      b'.events.length = bkDisc.events.length + 2 :=
  disclosed_increase_overwrites 5 oDisc80 oDisc50 [oDisc50] bkDisc
    rfl rfl rfl rfl rfl (by decide) rfl (by decide)

/-! ### C6: add-then-cancel leaves the book unchanged -/

/-- C6: adding a non-marketable limit order and immediately cancelling it
(same side, price and order number, with no intervening action) leaves the
resting-order state of both half-books exactly as before the add, including
dropping any price level the add created.  The order number is required to be
fresh at its (side, price) level, as order numbers are unique identifiers. -/
theorem add_cancel_roundtrip (fuel : Nat) (o : Order) (b : Book)
    (hm : o.mkt_flag = false)
    (hmk : marketableB b o.buy_sell_indicator o.limit_price = .ok false)
    (habs : findOrder b o.buy_sell_indicator o.limit_price o.order_number
      = none)
    (hb : levelsOK b)
    (hnk : keysNodup (b.data o.buy_sell_indicator)) :
    ∃ b1 b2, add fuel o b = .ok b1 ∧ cancel o b1 = .ok b2 ∧
      b2.bid = b.bid ∧ b2.ask = b.ask := by
  obtain ⟨ev, hev, _, _⟩ := mkEvent_ok .add o b hb
  cases hpl : price_level b o.buy_sell_indicator o.limit_price with
  | some lvl =>
    -- the level already exists: the order is appended onto its queue
    have hfo : findO lvl o.order_number = none := by
      simpa only [findOrder, hpl] using habs
    have hlvlne : lvl ≠ [] := by
      apply levelsOK_data b hb o.buy_sell_indicator (o.limit_price, lvl)
      rw [price_level] at hpl
      exact lookup_mem _ _ _ hpl
    have hodset : odSet lvl o = lvl ++ [o] := by
      rw [odSet, if_neg (by rw [hfo]; simp)]
    have hadd : add fuel o b = .ok (record_event
        (mapLevel b o.buy_sell_indicator o.limit_price
          (fun l => odSet l o)) ev) := by
      simp [add, hev, hm, hmk, hpl]
    have hOK1 : levelsOK (record_event
        (mapLevel b o.buy_sell_indicator o.limit_price
          (fun l => odSet l o)) ev) :=
      levelsOK_record _ _
        (levelsOK_mapLevel0 b _ _ _ hb (fun l => odSet_ne_nil l o))
    obtain ⟨evc, hevc, _, _⟩ := mkEvent_ok .cancel o _ hOK1
    have hlv1 : price_level (record_event
        (mapLevel b o.buy_sell_indicator o.limit_price
          (fun l => odSet l o)) ev) o.buy_sell_indicator o.limit_price
        = some (lvl ++ [o]) := by
      rw [price_level_record, mapLevel, price_level, data_setData_self,
        lookup_mapKey_self]
      rw [price_level] at hpl
      rw [hpl, Option.map_some', hodset]
    have hfind1 : findO (lvl ++ [o]) o.order_number = some o := by
      rw [findO_append_of_none _ _ _ hfo, findO, if_pos rfl]
    have hrem1 : removeO (lvl ++ [o]) o.order_number = lvl := by
      rw [removeO_append, removeO_of_none _ _ hfo]
      simp [removeO]
    have hdel : delete_order o.buy_sell_indicator o.limit_price o.order_number
        (record_event (mapLevel b o.buy_sell_indicator o.limit_price
          (fun l => odSet l o)) ev)
        = .ok (mapLevel (record_event
            (mapLevel b o.buy_sell_indicator o.limit_price
              (fun l => odSet l o)) ev)
            o.buy_sell_indicator o.limit_price (fun _ => lvl)) := by
      simp [delete_order, hlv1, hfind1, hrem1, hlvlne]
    have hOKc : levelsOK (mapLevel (record_event
        (mapLevel b o.buy_sell_indicator o.limit_price
          (fun l => odSet l o)) ev)
        o.buy_sell_indicator o.limit_price (fun _ => lvl)) :=
      delete_order_levelsOK _ _ _ _ _ hdel hOK1
    obtain ⟨q1, hq1⟩ := best_bid_quantity_ok _ hOKc
    obtain ⟨q2, hq2⟩ := best_ask_quantity_ok _ hOKc
    have hcan : cancel o (record_event
        (mapLevel b o.buy_sell_indicator o.limit_price
          (fun l => odSet l o)) ev)
        = .ok (record_event (mapLevel (record_event
            (mapLevel b o.buy_sell_indicator o.limit_price
              (fun l => odSet l o)) ev)
            o.buy_sell_indicator o.limit_price (fun _ => lvl)) evc) := by
      simp [cancel, hevc, hm, hlv1, hfind1, hdel, hq1, hq2]
    have hdata1 : (record_event (mapLevel (record_event
        (mapLevel b o.buy_sell_indicator o.limit_price
          (fun l => odSet l o)) ev)
        o.buy_sell_indicator o.limit_price (fun _ => lvl)) evc).data
          o.buy_sell_indicator = b.data o.buy_sell_indicator := by
      rw [data_record, mapLevel, data_setData_self, data_record, mapLevel,
        data_setData_self, mapKey_mapKey]
      rw [price_level] at hpl
      exact mapKey_const_self _ _ _ hnk hpl
    have hdata2 : (record_event (mapLevel (record_event
        (mapLevel b o.buy_sell_indicator o.limit_price
          (fun l => odSet l o)) ev)
        o.buy_sell_indicator o.limit_price (fun _ => lvl)) evc).data
          o.buy_sell_indicator.opp = b.data o.buy_sell_indicator.opp := by
      rw [data_record, mapLevel, data_setData_opp, data_record, mapLevel,
        data_setData_opp]
    obtain ⟨hbid, hask⟩ := book_eq_halves _ _ o.buy_sell_indicator hdata1 hdata2
    exact ⟨_, _, hadd, hcan, hbid, hask⟩
  | none =>
    -- no level yet: add creates it, cancel empties and drops it again
    have hnokey : ∀ e ∈ b.data o.buy_sell_indicator, ¬ e.1 = o.limit_price := by
      rw [price_level] at hpl
      exact lookup_none_keys _ _ hpl
    have hood : odSet ([] : Level) o = [o] := by simp [odSet, findO]
    have hadd : add fuel o b = .ok (record_event
        (mapLevel (create_level b o.buy_sell_indicator o.limit_price)
          o.buy_sell_indicator o.limit_price (fun l => odSet l o)) ev) := by
      simp [add, hev, hm, hmk, hpl]
    have hOK1 : levelsOK (record_event
        (mapLevel (create_level b o.buy_sell_indicator o.limit_price)
          o.buy_sell_indicator o.limit_price (fun l => odSet l o)) ev) :=
      levelsOK_record _ _ (levelsOK_post_create b _ _ o hb)
    obtain ⟨evc, hevc, _, _⟩ := mkEvent_ok .cancel o _ hOK1
    have hdata0 : (mapLevel (create_level b o.buy_sell_indicator o.limit_price)
        o.buy_sell_indicator o.limit_price (fun l => odSet l o)).data
          o.buy_sell_indicator
        = b.data o.buy_sell_indicator ++ [(o.limit_price, [o])] := by
      rw [mapLevel, data_setData_self, create_level, data_setData_self,
        mapKey_append, mapKey_of_no_key _ _ _ hnokey]
      simp [mapKey, hood]
    have hlv1 : price_level (record_event
        (mapLevel (create_level b o.buy_sell_indicator o.limit_price)
          o.buy_sell_indicator o.limit_price (fun l => odSet l o)) ev)
        o.buy_sell_indicator o.limit_price = some [o] := by
      rw [price_level_record, price_level, hdata0,
        lookup_append_of_no_key _ _ _ hnokey]
      simp [lookupLevel]
    have hfind1 : findO ([o] : Level) o.order_number = some o := by
      rw [findO, if_pos rfl]
    have hrem1 : removeO ([o] : Level) o.order_number = [] := by
      simp [removeO]
    have hdel : delete_order o.buy_sell_indicator o.limit_price o.order_number
        (record_event (mapLevel
          (create_level b o.buy_sell_indicator o.limit_price)
          o.buy_sell_indicator o.limit_price (fun l => odSet l o)) ev)
        = .ok (delete_level (mapLevel (record_event (mapLevel
            (create_level b o.buy_sell_indicator o.limit_price)
            o.buy_sell_indicator o.limit_price (fun l => odSet l o)) ev)
            o.buy_sell_indicator o.limit_price (fun _ => []))
            o.buy_sell_indicator o.limit_price) := by
      simp [delete_order, hlv1, hfind1, hrem1]
    have hOKc : levelsOK (delete_level (mapLevel (record_event (mapLevel
        (create_level b o.buy_sell_indicator o.limit_price)
        o.buy_sell_indicator o.limit_price (fun l => odSet l o)) ev)
        o.buy_sell_indicator o.limit_price (fun _ => []))
        o.buy_sell_indicator o.limit_price) :=
      delete_order_levelsOK _ _ _ _ _ hdel hOK1
    obtain ⟨q1, hq1⟩ := best_bid_quantity_ok _ hOKc
    obtain ⟨q2, hq2⟩ := best_ask_quantity_ok _ hOKc
    have hcan : cancel o (record_event (mapLevel
        (create_level b o.buy_sell_indicator o.limit_price)
        o.buy_sell_indicator o.limit_price (fun l => odSet l o)) ev)
        = .ok (record_event (delete_level (mapLevel (record_event (mapLevel
            (create_level b o.buy_sell_indicator o.limit_price)
            o.buy_sell_indicator o.limit_price (fun l => odSet l o)) ev)
            o.buy_sell_indicator o.limit_price (fun _ => []))
            o.buy_sell_indicator o.limit_price) evc) := by
      simp [cancel, hevc, hm, hlv1, hfind1, hdel, hq1, hq2]
    have hdata1 : (record_event (delete_level (mapLevel (record_event (mapLevel
        (create_level b o.buy_sell_indicator o.limit_price)
        o.buy_sell_indicator o.limit_price (fun l => odSet l o)) ev)
        o.buy_sell_indicator o.limit_price (fun _ => []))
        o.buy_sell_indicator o.limit_price) evc).data o.buy_sell_indicator
        = b.data o.buy_sell_indicator := by
      rw [data_record, delete_level, data_setData_self, mapLevel,
        data_setData_self, data_record, hdata0, mapKey_append,
        mapKey_of_no_key _ _ _ hnokey, eraseLevel_append,
        eraseLevel_of_no_key _ _ hnokey]
      simp [mapKey, eraseLevel]
    have hdata2 : (record_event (delete_level (mapLevel (record_event (mapLevel
        (create_level b o.buy_sell_indicator o.limit_price)
        o.buy_sell_indicator o.limit_price (fun l => odSet l o)) ev)
        o.buy_sell_indicator o.limit_price (fun _ => []))
        o.buy_sell_indicator o.limit_price) evc).data o.buy_sell_indicator.opp
        = b.data o.buy_sell_indicator.opp := by
      rw [data_record, delete_level, data_setData_opp, mapLevel,
        data_setData_opp, data_record, mapLevel, data_setData_opp,
        create_level, data_setData_opp]
    obtain ⟨hbid, hask⟩ := book_eq_halves _ _ o.buy_sell_indicator hdata1 hdata2
    exact ⟨_, _, hadd, hcan, hbid, hask⟩

theorem add_cancel_roundtrip_witness :
    ∃ b1 b2, add 5 oBuy49 emptyBook = .ok b1 ∧ cancel oBuy49 b1 = .ok b2 ∧
      b2.bid = emptyBook.bid ∧ b2.ask = emptyBook.ask :=
  add_cancel_roundtrip 5 oBuy49 emptyBook rfl rfl rfl (by decide) (by decide)

/-! ### C1: the per-resting-order case analysis of the matcher -/

/-- Postcondition of one matcher step against the level at `(s, p)`: exactly
one fill event carrying the trade payload `t` is journaled on top of `b`, the
swept level's queue becomes `lvl'` (`none` meaning the level was dropped),
and nothing else changes - other levels of the swept half, the whole opposite
half, the trade log and the trade counter are untouched. -/
def StepPost (b b' : Book) (s : Side) (p : ℚ) (ev : Event) (t : Trade)
    (lvl' : Option Level) : Prop :=
  b'.events = b.events ++ [(b.event_counter, { ev with trade := some t })] ∧
  b'.event_counter = b.event_counter + 1 ∧
  b'.trades = b.trades ∧
  b'.trade_counter = b.trade_counter ∧
  price_level b' s p = lvl' ∧
  (∀ q, q ≠ p → price_level b' s q = price_level b s q) ∧
  b'.data s.opp = b.data s.opp

theorem map_dec_of_ne (rest : Level) (n : Nat) (dv : ℤ)
    (h : ∀ x ∈ rest, x.order_number ≠ n) :
    rest.map (fun x => if x.order_number = n
      then { x with volume_original := x.volume_original - dv } else x)
      = rest := by
  induction rest with
  | nil => rfl
  | cons x t ih =>
    rw [List.map_cons, if_neg (h x (List.mem_cons_self _ _)),
      ih (fun y hy => h y (List.mem_cons_of_mem _ hy))]

/-- Removing the oldest order of the level right after journaling its fill
event realizes the step postcondition. -/
theorem delete_record_post (s : Side) (p : ℚ) (curr : Order)
    (rest : List Order) (b : Book) (ev : Event) (t : Trade)
    (hlv : price_level b s p = some (curr :: rest))
    (hrest : ∀ x ∈ rest, x.order_number ≠ curr.order_number) :
    ∃ b', delete_order s p curr.order_number
        (record_event b { ev with trade := some t }) = .ok b' ∧
      StepPost b b' s p ev t (if rest = [] then none else some rest) := by
  obtain ⟨b', hdel, hP, hQ, hOpp, hEv, hCtr, hTr, hTc⟩ :=
    delete_order_post s p curr rest (record_event b { ev with trade := some t })
      (by rw [price_level_record]; exact hlv) hrest
  exact ⟨b', hdel, hEv, hCtr, hTr, hTc, hP,
    fun q hq => (hQ q hq).trans (price_level_record b _ s q), hOpp⟩

/-- C1 (amended): one matching step of an incoming order with residual `V`
against the oldest resting order `curr` (volume `R`) at price `p` of the
swept half-book behaves as follows.  `R = V`: a trade of quantity `V` at the
resting price is journaled, the resting order is removed and the residual
becomes 0.  `R > V`: a trade of quantity `R - V` (the source's literal
arithmetic) is journaled, the resting order's volume is decremented by `V` in
place and the residual becomes 0.  `R < V`: a trade is journaled - of
quantity `R` in the MARKET-order loop but of quantity `V` (the current
residual, not the resting volume claimed) in the marketable-LIMIT loop - the
resting order is removed, the residual drops by `R` and the sweep continues
over the remaining queue. -/
theorem matcher_step_case_analysis (isMkt : Bool) (hbSide : Side) (p : ℚ)
    (curr : Order) (rest : List Order) (ev : Event) (V : ℤ) (r : Regs)
    (b : Book) (bn sn : Nat)
    (hside : curr.buy_sell_indicator = hbSide)
    (hlv : price_level b hbSide p = some (curr :: rest))
    (hbn : (seedRegs curr.buy_sell_indicator curr.order_number r).buyN
      = some bn)
    (hsn : (seedRegs curr.buy_sell_indicator curr.order_number r).sellN
      = some sn)
    (hrest : ∀ x ∈ rest, x.order_number ≠ curr.order_number) :
    (curr.volume_original = V →
      ∃ b', matchInner isMkt hbSide p (curr :: rest) ev V r b =
          .ok (0, seedRegs curr.buy_sell_indicator curr.order_number r, b') ∧
        StepPost b b' hbSide p ev ⟨p, V, bn, sn⟩
          (if rest = [] then none else some rest)) ∧
    (V < curr.volume_original →
      ∃ b', matchInner isMkt hbSide p (curr :: rest) ev V r b =
          .ok (0, seedRegs curr.buy_sell_indicator curr.order_number r, b') ∧
        StepPost b b' hbSide p ev ⟨p, curr.volume_original - V, bn, sn⟩
          (some ({ curr with volume_original := curr.volume_original - V }
            :: rest))) ∧
    (curr.volume_original < V →
      ∃ b', matchInner isMkt hbSide p (curr :: rest) ev V r b =
          matchInner isMkt hbSide p rest ev (V - curr.volume_original)
            (seedRegs curr.buy_sell_indicator curr.order_number r) b' ∧
        StepPost b b' hbSide p ev
          ⟨p, if isMkt then curr.volume_original else V, bn, sn⟩
          (if rest = [] then none else some rest)) := by
  refine ⟨?_, ?_, ?_⟩
  · intro hEq
    have hmt : mkTrade p V
        (seedRegs curr.buy_sell_indicator curr.order_number r)
        = .ok ⟨p, V, bn, sn⟩ := by
      simp only [mkTrade, hbn, hsn]
    rw [hside] at hmt
    obtain ⟨b', hdel, hpost⟩ := delete_record_post hbSide p curr rest b ev
      ⟨p, V, bn, sn⟩ hlv hrest
    refine ⟨b', ?_, hpost⟩
    simp only [matchInner, if_pos hEq, hmt, hside, hdel]
  · intro hLt
    have hmt : mkTrade p (curr.volume_original - V)
        (seedRegs curr.buy_sell_indicator curr.order_number r)
        = .ok ⟨p, curr.volume_original - V, bn, sn⟩ := by
      simp only [mkTrade, hbn, hsn]
    refine ⟨mapLevel (record_event b
        { ev with trade := some ⟨p, curr.volume_original - V, bn, sn⟩ })
        hbSide p (fun lvl => lvl.map (fun x =>
          if x.order_number = curr.order_number then
            { x with volume_original := x.volume_original - V } else x)),
      ?_, ?_, ?_, ?_, ?_, ?_, ?_, ?_⟩
    · simp only [matchInner, if_neg (ne_of_gt hLt), if_pos hLt, hmt]
    · rw [mapLevel, events_setData]; rfl
    · rw [mapLevel, event_counter_setData]; rfl
    · rw [mapLevel, trades_setData]; rfl
    · rw [mapLevel, trade_counter_setData]; rfl
    · rw [mapLevel, price_level, data_setData_self, lookup_mapKey_self]
      have hlv1 : lookupLevel ((record_event b
          { ev with trade := some ⟨p, curr.volume_original - V, bn, sn⟩ }).data
          hbSide) p = some (curr :: rest) := by
        rw [data_record]
        rw [price_level] at hlv
        exact hlv
      rw [hlv1, Option.map_some', List.map_cons, if_pos rfl,
        map_dec_of_ne rest curr.order_number V hrest]
    · intro q hq
      rw [mapLevel, price_level, data_setData_self,
        lookup_mapKey_ne _ _ _ _ hq, data_record]
      rfl
    · rw [mapLevel, data_setData_opp, data_record]
  · intro hGt
    have hmt : mkTrade p (if isMkt then curr.volume_original else V)
        (seedRegs curr.buy_sell_indicator curr.order_number r)
        = .ok ⟨p, if isMkt then curr.volume_original else V, bn, sn⟩ := by
      simp only [mkTrade, hbn, hsn]
    rw [hside] at hmt
    obtain ⟨b', hdel, hpost⟩ := delete_record_post hbSide p curr rest b ev
      ⟨p, if isMkt then curr.volume_original else V, bn, sn⟩ hlv hrest
    refine ⟨b', ?_, hpost⟩
    simp only [matchInner, if_neg (ne_of_lt hGt), if_neg (lt_asymm hGt),
      hmt, hside, hdel]

/-- C1 counterexample: the claim says that in the `R < V` case a trade of
quantity `R` (the resting volume) is journaled in BOTH the market and the
marketable-limit loops.  Sweeping BUY 150 @ 50 against the resting queue
[100 @ 50, 60 @ 50] with the LIMIT loop journals first-fill quantity 150
(the residual `V`, lob.py:686), not 100: the recorded quantities are
[150, 10], not the claimed [100, 10]. -/
theorem limit_sweep_quantity_counterexample :
    isOkB (add 10 oBuy150 bkAsk) = true ∧
    tradeQtys (runBook (add 10 oBuy150 bkAsk)) = [some 150, some 10] ∧
    ¬ tradeQtys (runBook (add 10 oBuy150 bkAsk)) = [some 100, some 10] := by
  exact ⟨by decide, by decide, by decide⟩

/-- The event template of the sweep used by the step witness. -/
def evW : Event :=
  { time := 2, date := ⟨1, 5, 2020⟩, price := 50, order_number := 2,
    action := .add, indicator := .B, mkt_flag := false,
    volume_original := 150, volume_disclosed := 150,
    best_bid := none, best_bid_volume_original := 0,
    best_ask := some 50, best_ask_volume_original := 160, trade := none }

theorem matcher_step_case_analysis_witness :
    (oSell50.volume_original = 100 →
      ∃ b', matchInner false .S 50 (oSell50 :: [oS60]) evW 100
          ⟨some 2, none⟩ bkAsk =
          .ok (0, seedRegs oSell50.buy_sell_indicator oSell50.order_number
            ⟨some 2, none⟩, b') ∧
        StepPost bkAsk b' .S 50 evW ⟨50, 100, 2, 1⟩
          (if ([oS60] : List Order) = [] then none else some [oS60])) ∧
    ((100 : ℤ) < oSell50.volume_original →
      ∃ b', matchInner false .S 50 (oSell50 :: [oS60]) evW 100
          ⟨some 2, none⟩ bkAsk =
          .ok (0, seedRegs oSell50.buy_sell_indicator oSell50.order_number
            ⟨some 2, none⟩, b') ∧
        StepPost bkAsk b' .S 50 evW
          ⟨50, oSell50.volume_original - 100, 2, 1⟩
          (some ({ oSell50 with volume_original :=
              oSell50.volume_original - 100 } :: [oS60]))) ∧
    (oSell50.volume_original < 100 →
      ∃ b', matchInner false .S 50 (oSell50 :: [oS60]) evW 100
          ⟨some 2, none⟩ bkAsk =
          matchInner false .S 50 [oS60] evW (100 - oSell50.volume_original)
            (seedRegs oSell50.buy_sell_indicator oSell50.order_number
              ⟨some 2, none⟩) b' ∧
        StepPost bkAsk b' .S 50 evW
          ⟨50, if false then oSell50.volume_original else 100, 2, 1⟩
          (if ([oS60] : List Order) = [] then none else some [oS60])) :=
  matcher_step_case_analysis false .S 50 oSell50 [oS60] evW 100
    ⟨some 2, none⟩ bkAsk 2 1 rfl rfl rfl rfl (by decide)

end LOB
